import Mathlib

/-!
Verification of the prim-index construction core (pxr/usd/pcp/primIndex.cpp)
against its natural-language specification.

The development shallowly embeds the data model and the operations of the
indexer.  Paths are modelled as lists of component tokens (Nat), layer
stacks as opaque ids (Nat), and each C++ function named in a claim is
translated into an executable Lean definition that mirrors its control
flow.  External collaborators that are declared outside this source file
(SdfPath, PcpNodeRef accessors, PcpCompareNodeStrength, the stack-frame
iterator) are modelled from the specification; each such definition says so
in its doc comment.
-/

namespace Pcp

/-- Composition arc kinds (PcpArcType). -/
inductive ArcType where
  | Root
  | Relocate
  | Inherit
  | Specialize
  | Variant
  | Reference
  | Payload
deriving DecidableEq, Repr

/-- PcpIsClassBasedArc: inherits and specializes are the class-based arcs. -/
def PcpIsClassBasedArc : ArcType → Bool
  | .Inherit => true
  | .Specialize => true
  | _ => false

/-- Modelled from the spec: an absolute scene path is a list of component
tokens; the absolute root is the empty list.  Component tokens are drawn
from Nat.  (SdfPath is external to the source file; the spec says paths
are immutable identifiers with components and component-wise prefix
tests.) -/
abbrev SitePath := List Nat

/-- Modelled from the spec: SdfPath::HasPrefix is component-wise, so the
absolute root (the empty component list) is a prefix of every absolute
path.  First argument is the path, second the candidate prefix. -/
def pathHasPfx (p pre : SitePath) : Bool := pre.isPrefixOf p

/-- Modelled from the spec: SdfPath::ReplacePrefix as used by the
stack-frame translation, a prefix replacement.  If oldPre is not a prefix
the path is returned unchanged. -/
def pathReplacePfx (p oldPre newPre : SitePath) : SitePath :=
  if oldPre.isPrefixOf p then newPre ++ p.drop oldPre.length else p

/-- Modelled from the spec: SdfPath::IsRootPrimPath holds exactly for
paths with a single prim component. -/
def isRootPrimPath (p : SitePath) : Bool := p.length == 1

/-- A layer-stack site: a layer-stack reference (opaque id) and a path.
Two sites are equal iff both fields are equal. -/
structure Site where
  layerStack : Nat
  path : SitePath
deriving DecidableEq, Repr

/-! ## Nodes, stack frames and the cycle check (claims C1, C6, C7) -/

/-- A node of a prim index graph under construction, with its parent chain.
The id field models PcpNodeRef identity (two refs are equal iff they denote
the same node).  The root of a graph carries arc type Root. -/
inductive PcpNode where
  | root (id : Nat) (site : Site)
  | child (id : Nat) (arcType : ArcType) (site : Site) (parent : PcpNode)
deriving DecidableEq, Repr

/-- The site of a node. -/
def PcpNode.site : PcpNode → Site
  | .root _ s => s
  | .child _ _ s _ => s

/-- PcpNodeRef::GetArcType: the graph root has arc type Root. -/
def PcpNode.arcType : PcpNode → ArcType
  | .root _ _ => .Root
  | .child _ t _ _ => t

/-- Number of ancestors of a node within its own graph. -/
def PcpNode.depth : PcpNode → Nat
  | .root _ _ => 0
  | .child _ _ _ p => p.depth + 1

/-- PcpNodeRef::GetRootNode: the root of the node's own graph. -/
def PcpNode.rootNode : PcpNode → PcpNode
  | .root i s => .root i s
  | .child _ _ _ p => p.rootNode

/-- Modelled from the spec: a stack frame linking a recursive
Pcp_BuildPrimIndex call to its enclosing call (PcpPrimIndex_StackFrame is
declared outside this source file).  Per the design notes, each frame
records the requested path, the node in the outer graph the arc is being
added beneath, and the arc being built (here: its type). -/
structure StackFrame where
  requestedPath : SitePath
  parentNode : PcpNode
  arcToParentType : ArcType
deriving DecidableEq, Repr

/-- Modelled from the spec: one step of PcpPrimIndex_StackFrameIterator's
Next(): move to the parent node, crossing into the enclosing stack frame
when the current node is its graph's root. -/
def iterNext : PcpNode → List StackFrame → Option (PcpNode × List StackFrame)
  | .child _ _ _ p, frames => some (p, frames)
  | .root _ _, f :: rest => some (f.parentNode, rest)
  | .root _ _, [] => none

/-- Modelled from the spec: PcpPrimIndex_StackFrameIterator::GetArcType():
a graph root seen mid-recursion reports the type of the arc being built in
the enclosing frame. -/
def iterArcType : PcpNode → List StackFrame → ArcType
  | .child _ t _ _, _ => t
  | .root _ _, f :: _ => f.arcToParentType
  | .root _ _, [] => .Root

/-- _HasAncestorCycle (primIndex.cpp 1206-1217): an ancestor shares its
layer stack with the child site and one path is a prefix of the other. -/
def hasAncestorCycle (parentSite childSite : Site) : Bool :=
  parentSite.layerStack == childSite.layerStack &&
  (pathHasPfx parentSite.path childSite.path ||
   pathHasPfx childSite.path parentSite.path)

/-- _FindAncestorCycleInParentGraph (primIndex.cpp 1219-1230): test the
child site against every ancestor of the parent node within one graph,
the parent node included. -/
def findAncestorCycleInParentGraph : PcpNode → Site → Bool
  | .root _ s, cs => hasAncestorCycle s cs
  | .child _ _ s p, cs =>
    hasAncestorCycle s cs || findAncestorCycleInParentGraph p cs

/-- The cross-frame translation of the child site performed by
_CheckForCycle (primIndex.cpp 1328-1340): rewrite the child path into the
path it will have once the current subgraph is grafted into the enclosing
graph. -/
def translateChildSite (n : PcpNode) (f : StackFrame) (cs : Site) : Site :=
  let currentRootPath := (n.rootNode).site.path
  { cs with
    path :=
      if currentRootPath == cs.path then f.requestedPath
      else pathReplacePfx f.requestedPath currentRootPath cs.path }

/-- The frame loop of _CheckForCycle (primIndex.cpp 1292-1341): look for an
ancestor cycle in each enclosing graph, translating the child site at each
frame boundary. -/
def findCycleAcrossFrames : PcpNode → List StackFrame → Site → Bool
  | n, [], cs => findAncestorCycleInParentGraph n cs
  | n, f :: rest, cs =>
    findAncestorCycleInParentGraph n cs ||
    findCycleAcrossFrames f.parentNode rest (translateChildSite n f cs)

/-- The (site, arc type) segments of one graph's parent chain, the graph
root reporting the given arc type (the type of the arc being built in the
enclosing frame, or Root at the outermost graph). -/
def graphChain : PcpNode → ArcType → List (Site × ArcType)
  | .child _ t s p, rootArc => (s, t) :: graphChain p rootArc
  | .root _ s, rootArc => [(s, rootArc)]

/-- The full parent chain walked by PcpPrimIndex_StackFrameIterator::Next()
from a node across all enclosing frames, as the list of (site, arc type)
segments that _CheckForCycle collects for the ArcCycle error. -/
def iterChain (n : PcpNode) : List StackFrame → List (Site × ArcType)
  | [] => graphChain n .Root
  | f :: rest => graphChain n f.arcToParentType ++ iterChain f.parentNode rest

/-- _IsImpliedClassBasedArc (primIndex.cpp 1232-1239): a class-based arc
whose origin differs from its parent. -/
def impliedClassBasedArc (t : ArcType) (parent origin : PcpNode) : Bool :=
  PcpIsClassBasedArc t && parent != origin

/-- The skip loop of _CheckForCycle's relocates exemption (primIndex.cpp
1265-1269): advance the iterator across class-based arcs. -/
def exemptSkip (parent origin : PcpNode) :
    PcpNode → List StackFrame → Option (PcpNode × List StackFrame)
  | n, frames =>
    if impliedClassBasedArc (iterArcType n frames) parent origin then
      match h : iterNext n frames with
      | some (n2, fs2) => exemptSkip parent origin n2 fs2
      | none => none
    else some (n, frames)
termination_by n frames => (frames.length, n.depth)
decreasing_by
  cases n with
  | root i s =>
    cases frames with
    | nil => simp [iterNext] at h
    | cons f rest =>
      simp [iterNext] at h
      simp [h.1, h.2]
      omega
  | child i t s p =>
    simp [iterNext] at h
    simp [h.1, h.2, PcpNode.depth]
    omega

/-- The relocates exemption of _CheckForCycle (primIndex.cpp 1257-1275):
an implied class-based arc whose nearest non-class ancestor (walking the
iterator) is a Relocate node is not checked for cycles. -/
def cycleExempt (arcType : ArcType) (parent origin : PcpNode)
    (frames : List StackFrame) : Bool :=
  if impliedClassBasedArc arcType parent origin then
    match exemptSkip parent origin parent frames with
    | some (n, fs) => iterArcType n fs == .Relocate
    | none => false
  else false

/-- An ArcCycle error: the chain of (site, arc type) segments from the
root to the offending site (primIndex.cpp 1343-1362). -/
structure ArcCycleErr where
  cycle : List (Site × ArcType)
deriving DecidableEq, Repr

/-- _CheckForCycle (primIndex.cpp 1249-1366). -/
def CheckForCycle (parent origin : PcpNode) (arcType : ArcType)
    (childSite : Site) (frames : List StackFrame) : Option ArcCycleErr :=
  if cycleExempt arcType parent origin frames then none
  else if arcType == .Variant then none
  else if findCycleAcrossFrames parent frames childSite then
    some ⟨(iterChain parent frames).reverse ++ [(childSite, arcType)]⟩
  else none

/-- The sites of a node and all its ancestors within one graph. -/
def graphAncestors : PcpNode → List Site
  | .root _ s => [s]
  | .child _ _ s p => s :: graphAncestors p

/-- The walk the claim describes: every (ancestor site, child site as
translated for that ancestor's graph) pair visited from the parent up to
the outermost root, crossing recursive stack frames. -/
def walkPairs : PcpNode → List StackFrame → Site → List (Site × Site)
  | n, [], cs => (graphAncestors n).map (fun s => (s, cs))
  | n, f :: rest, cs =>
    (graphAncestors n).map (fun s => (s, cs)) ++
    walkPairs f.parentNode rest (translateChildSite n f cs)

/-- The claim's cycle condition: some walked ancestor shares its layer
stack with the (translated) child site and one path is a prefix of the
other. -/
def claimCycleExists (parent : PcpNode) (frames : List StackFrame)
    (childSite : Site) : Prop :=
  ∃ pr ∈ walkPairs parent frames childSite,
    pr.1.layerStack = pr.2.layerStack ∧
    (pathHasPfx pr.1.path pr.2.path = true ∨
     pathHasPfx pr.2.path pr.1.path = true)

instance (parent : PcpNode) (frames : List StackFrame) (childSite : Site) :
    Decidable (claimCycleExists parent frames childSite) := by
  unfold claimCycleExists; infer_instance

/-- The claim's exemption: an implied class-based arc whose nearest
non-class-based walked arc is a Relocate. -/
def claimExempt (arcType : ArcType) (parent origin : PcpNode)
    (frames : List StackFrame) : Prop :=
  PcpIsClassBasedArc arcType = true ∧ parent ≠ origin ∧
  ((iterChain parent frames).map Prod.snd).find?
    (fun t => !PcpIsClassBasedArc t) = some .Relocate

instance (arcType : ArcType) (parent origin : PcpNode)
    (frames : List StackFrame) : Decidable (claimExempt arcType parent origin frames) := by
  unfold claimExempt; infer_instance

/-! ## Error records (RecordError, claim C9) -/

/-- The error taxonomy of the indexer (PcpErrorType values that
primIndex.cpp records). -/
inductive ErrorType where
  | ArcCycle
  | ArcPermissionDenied
  | PrimPermissionDenied
  | InvalidPrimPath
  | InvalidReferenceOffset
  | UnresolvedPrimPath
  | InvalidAssetPath
  | MutedAssetPath
  | OpinionAtRelocationSource
  | IndexCapacityExceeded
  | ArcCapacityExceeded
  | ArcNamespaceDepthCapacityExceeded
deriving DecidableEq, Repr

/-- A structured composition error: its category plus an opaque payload
standing for the kind-specific fields (sites, paths, ...). -/
structure PcpError where
  errorType : ErrorType
  payload : Nat
deriving DecidableEq, Repr

/-- The three capacity categories singled out by Pcp_PrimIndexer::RecordError
(primIndex.cpp 1156-1158). -/
def isCapacityError (t : ErrorType) : Bool :=
  t == .IndexCapacityExceeded || t == .ArcCapacityExceeded ||
  t == .ArcNamespaceDepthCapacityExceeded

/-- Pcp_PrimIndexer::RecordError (primIndex.cpp 1152-1173): capacity errors
already present in allErrors are dropped; every other error is appended to
both the local error list of the prim index and the global allErrors list. -/
def RecordError (err : PcpError) (localErrors allErrors : List PcpError) :
    List PcpError × List PcpError :=
  if isCapacityError err.errorType &&
      allErrors.any (fun e => e.errorType == err.errorType) then
    (localErrors, allErrors)
  else
    (localErrors ++ [err], allErrors ++ [err])

/-- Record a sequence of errors in order, starting from the given pair of
lists (local, all). -/
def recordAllErrors : List PcpError → List PcpError × List PcpError →
    List PcpError × List PcpError
  | [], st => st
  | e :: rest, st => recordAllErrors rest (RecordError e st.1 st.2)

/-! ## Salted-earth relocation check in _AddArc (claim C7) -/

/-- Strict lexicographic order on paths, component-wise; this is the key
order of the std::map (SdfRelocatesMap) that _AddArc's lower_bound call
searches.  Modelled from the spec: relocation tables are path-keyed maps. -/
def pathLtB : SitePath → SitePath → Bool
  | [], [] => false
  | [], _ :: _ => true
  | _ :: _, [] => false
  | a :: as, b :: bs => if a < b then true else if b < a then false else pathLtB as bs

/-- std::map::lower_bound on a sorted key list: the first key that is not
less than the query. -/
def lowerBoundKey (keys : List SitePath) (q : SitePath) : Option SitePath :=
  keys.find? (fun k => !(pathLtB k q))

/-- The salted-earth test of _AddArc (primIndex.cpp 1505-1513): look up the
first relocation source not below the site path in map order and test
whether it has the site path as a prefix. -/
def saltedEarthHit (relocSources : List SitePath) (sitePath : SitePath) : Bool :=
  match lowerBoundKey relocSources sitePath with
  | some k => pathHasPfx k sitePath
  | none => false

/-- The effective directNodeShouldContributeSpecs flag computed by _AddArc
(primIndex.cpp 1505-1513): cleared when the arc contributes direct opinions,
includes ancestral opinions, and the target layer stack relocates a source
at or beneath the child site path. -/
def addArcDirectContributes (direct includeAncestral : Bool)
    (relocSources : List SitePath) (sitePath : SitePath) : Bool :=
  if direct && includeAncestral && saltedEarthHit relocSources sitePath then
    false
  else direct

/-! ## The _AddArc front end (claims C1, C6, C7) -/

/-- The node (root of the grafted subtree) produced by a successful _AddArc
call, reduced to the fields the claims consult: its site and whether the
node (and, for the placeholder cases, its whole subtree) is inert.  For a
leaf insertion the inert flag is set from the negated effective
directNodeShouldContributeSpecs (primIndex.cpp 1531); for a recursive
insertion the same flag reaches the subtree root through
rootNodeShouldContributeSpecs (primIndex.cpp 4637-4639, 4693). -/
structure NewNode where
  site : Site
  inert : Bool
deriving DecidableEq, Repr

/-- The steps of _AddArc (primIndex.cpp 1430-1717) that the claims cover:
the cycle check (record an ArcCycle error and bail), the duplicate-node
check (silently skip; the graph searches are abstracted into the
duplicateFound flag), the salted-earth adjustment of the
direct-contributes flag, node creation with the inert flag, and the
absolute-root placeholder rule that inerts the whole new subtree.  The
returned error list extends the one passed in. -/
def AddArcModel (arcType : ArcType) (parent origin : PcpNode)
    (frames : List StackFrame) (site : Site)
    (direct includeAncestral : Bool) (relocSources : List SitePath)
    (duplicateFound : Bool) (errors : List PcpError) :
    Option NewNode × List PcpError :=
  match CheckForCycle parent origin arcType site frames with
  | some _ => (none, errors ++ [{ errorType := .ArcCycle, payload := 0 }])
  | none =>
    if duplicateFound then (none, errors)
    else
      let direct2 := addArcDirectContributes direct includeAncestral
        relocSources site.path
      let node : NewNode := { site := site, inert := !direct2 }
      let node :=
        if site.path == ([] : SitePath) then { node with inert := true }
        else node
      (some node, errors)

/-- _GetDefaultPrimPath (primIndex.cpp 1754-1760): the default prim of a
layer as a root prim path, or the empty path when absent or invalid.  The
Option models both absence and an invalid identifier. -/
def getDefaultPrimPath (defaultPrim : Option Nat) : SitePath :=
  match defaultPrim with
  | some t => [t]
  | none => []

/-- The prim-path determination for one reference or payload arc with an
empty authored prim path, followed by the _AddArc call
(_EvalRefOrPayloadArcs, primIndex.cpp 2017-2079).  When the target layer
has no default prim, an UnresolvedPrimPath error is recorded, the prim
path is set to the absolute root and the direct-contributes flag is
cleared; the arc is then handed to _AddArc regardless.  Returns the
node produced (if any) and the updated error list. -/
def evalRefPayloadEmptyPrimPath (arcType : ArcType) (parent : PcpNode)
    (frames : List StackFrame) (targetLayerStack : Nat)
    (defaultPrim : Option Nat) (relocSources : List SitePath)
    (duplicateFound : Bool) (errors : List PcpError) :
    Option NewNode × List PcpError :=
  let defaultPrimPath := getDefaultPrimPath defaultPrim
  let (defaultPrimPath, direct, errors) :=
    if defaultPrimPath == ([] : SitePath) then
      ([], false, errors ++ [{ errorType := .UnresolvedPrimPath, payload := 0 }])
    else (defaultPrimPath, true, errors)
  let primPath := defaultPrimPath
  let includeAncestral := !isRootPrimPath primPath
  AddArcModel arcType parent parent frames
    { layerStack := targetLayerStack, path := primPath }
    direct includeAncestral relocSources duplicateFound errors

/-! ## Permission enforcement (claim C2) -/

/-- SdfPermission: whether opinions at a site may be accessed from other
sites. -/
inductive SdfPermission where
  | Public
  | Private
deriving DecidableEq, Repr

/-- A node of the finished prim index as seen by _EnforcePermissions: its
site, whether it can contribute specs, its composed permission, its
restricted flag, its HasSpecs flag, and the per-layer HasSpec results of
its layer stack. -/
structure PermNode where
  site : Site
  canContributeSpecs : Bool
  permission : SdfPermission
  restricted : Bool
  hasSpecs : Bool
  layerHasSpec : List Bool
deriving DecidableEq, Repr

/-- The weak-to-strong sweep of _EnforcePermissions (primIndex.cpp
4117-4161), processing the strength-ordered node list in reverse.  The
first argument holds the seen-private node, if any.  Returns the updated
nodes (still in weak-to-strong order) and the PrimPermissionDenied errors
emitted, each as a pair (offending site, private site). -/
def enforceRec : Option PermNode → List PermNode →
    List PermNode × List (Site × Site)
  | _, [] => ([], [])
  | priv, n :: rest =>
    if !n.canContributeSpecs then
      let (ns, es) := enforceRec priv rest
      (n :: ns, es)
    else
      match priv with
      | some pn =>
        let n2 := { n with restricted := true }
        let errs :=
          if n.hasSpecs && n.layerHasSpec.any (fun b => b) then
            [(n.site, pn.site)]
          else []
        let (ns, es) := enforceRec (some pn) rest
        (n2 :: ns, errs ++ es)
      | none =>
        let priv2 := if n.permission != .Public then some n else none
        let (ns, es) := enforceRec priv2 rest
        (n :: ns, es)

/-- _EnforcePermissions (primIndex.cpp 4100-4162): gather all nodes in
strength order, then walk them weak-to-strong maintaining a seen-private
node; every stronger spec-contributing node after a private node is
restricted and, if it has a spec in some layer, reported. -/
def EnforcePermissions (nodes : List PermNode) :
    List PermNode × List (Site × Site) :=
  let (rev, errs) := enforceRec none nodes.reverse
  (rev.reverse, errs)

/-- A node that participates in the seen-private tracking: it can
contribute specs and its permission is not Public (primIndex.cpp
4120, 4157-4160). -/
def isPrivateContributor (n : PermNode) : Prop :=
  n.canContributeSpecs = true ∧ n.permission ≠ .Public

instance (n : PermNode) : Decidable (isPrivateContributor n) := by
  unfold isPrivateContributor; infer_instance

/-- The update _EnforcePermissions applies to nodes stronger than the
seen-private node: spec-contributing nodes become restricted. -/
def restrictIfContributes (n : PermNode) : PermNode :=
  if n.canContributeSpecs then { n with restricted := true } else n

/-- Whether a restricted stronger node additionally triggers a
PrimPermissionDenied error: it must contribute, have the HasSpecs flag,
and actually own a spec in some layer. -/
def triggersPermissionError (n : PermNode) : Bool :=
  n.canContributeSpecs && (n.hasSpecs && n.layerHasSpec.any (fun b => b))

/-! ## The task queue (claims C8, C10, C4, C5) -/

/-- Task::Type (primIndex.cpp 682-696), in evaluation priority order:
smaller enumerator values are higher priority. -/
inductive TaskType where
  | EvalNodeRelocations
  | EvalImpliedRelocations
  | EvalNodeReferences
  | EvalNodePayload
  | EvalNodeInherits
  | EvalImpliedClasses
  | EvalNodeSpecializes
  | EvalImpliedSpecializes
  | EvalNodeVariantSets
  | EvalNodeVariantAuthored
  | EvalNodeVariantFallback
  | EvalNodeVariantNoneFound
  | NoneType
deriving DecidableEq, Repr

/-- The numeric enumerator value of a task type. -/
def TaskType.rank : TaskType → Nat
  | .EvalNodeRelocations => 0
  | .EvalImpliedRelocations => 1
  | .EvalNodeReferences => 2
  | .EvalNodePayload => 3
  | .EvalNodeInherits => 4
  | .EvalImpliedClasses => 5
  | .EvalNodeSpecializes => 6
  | .EvalImpliedSpecializes => 7
  | .EvalNodeVariantSets => 8
  | .EvalNodeVariantAuthored => 9
  | .EvalNodeVariantFallback => 10
  | .EvalNodeVariantNoneFound => 11
  | .NoneType => 12

/-- A task of the indexer (primIndex.cpp 680-827): its type, the node it
applies to (as a node-pool index), and the variant-set data.  The
variant-set name is kept as a string as in the source. -/
structure Task where
  type : TaskType
  node : Nat
  vsetName : String
  vsetNum : Nat
deriving DecidableEq, Repr

instance : Inhabited Task := ⟨⟨.NoneType, 0, "", 0⟩⟩

/-- Task::PriorityOrder (primIndex.cpp 700-758): the strict order used by
the max-heap; a is ordered before b (lower priority) when this is true.
The function s models PcpCompareNodeStrength (declared outside this source
file): per the spec, node strength is a total order over nodes; s maps a
node index to its strength rank, smaller rank meaning stronger, so that
comparing ranks decides strength.  The EvalImpliedClasses case compares
raw node-pool indices, descendants (larger index) first. -/
def taskLT (s : Nat → Nat) (a b : Task) : Bool :=
  if a.type != b.type then a.type.rank > b.type.rank
  else
    match a.type with
    | .EvalNodePayload => s a.node > s b.node
    | .EvalNodeVariantAuthored | .EvalNodeVariantFallback =>
      if a.node != b.node then s a.node > s b.node
      else a.vsetNum > b.vsetNum
    | .EvalNodeVariantNoneFound =>
      if a.node != b.node then a.node > b.node
      else a.vsetNum > b.vsetNum
    | .EvalImpliedClasses => b.node > a.node
    | _ => a.node > b.node

/-- A numeric key capturing taskLT: taskLT holds exactly when the key of
the first task is lexicographically smaller. -/
def taskKey (s : Nat → Nat) (t : Task) : Int × Int × Int :=
  ( -(t.type.rank : Int),
    match t.type with
    | .EvalNodePayload => -(s t.node : Int)
    | .EvalNodeVariantAuthored | .EvalNodeVariantFallback => -(s t.node : Int)
    | .EvalNodeVariantNoneFound => -(t.node : Int)
    | .EvalImpliedClasses => (t.node : Int)
    | _ => -(t.node : Int),
    match t.type with
    | .EvalNodeVariantAuthored | .EvalNodeVariantFallback
    | .EvalNodeVariantNoneFound => -(t.vsetNum : Int)
    | _ => 0 )

/-- Strict lexicographic order on key triples. -/
def keyLt (a b : Int × Int × Int) : Prop :=
  a.1 < b.1 ∨ (a.1 = b.1 ∧ (a.2.1 < b.2.1 ∨ (a.2.1 = b.2.1 ∧ a.2.2 < b.2.2)))

instance (a b : Int × Int × Int) : Decidable (keyLt a b) := by
  unfold keyLt; infer_instance

/-- The promotion RetryVariantTasks applies to each task (primIndex.cpp
1133-1136): fallback and none-found variant tasks become authored variant
tasks; every other task is left alone. -/
def promoteTask (t : Task) : Task :=
  if t.type == .EvalNodeVariantFallback ||
      t.type == .EvalNodeVariantNoneFound then
    { t with type := .EvalNodeVariantAuthored }
  else t

/-- Indexed read of the task vector (out-of-range reads return the
default task; all uses are in range). -/
def getT (l : List Task) (i : Nat) : Task := (l[i]?).getD default

/-- std::push_heap on the range [0, i]: sift the element at position i up
toward the root, swapping it with its parent while the parent compares
lower.  The last argument is fuel bounding the number of steps; the parent
index is always strictly smaller, so fuel equal to the position suffices. -/
def siftUpAux (lt : Task → Task → Bool) : List Task → Nat → Nat → List Task
  | l, _, 0 => l
  | l, i, fuel + 1 =>
    if i = 0 then l
    else if lt (getT l ((i - 1) / 2)) (getT l i) then
      siftUpAux lt
        ((l.set ((i - 1) / 2) (getT l i)).set i (getT l ((i - 1) / 2)))
        ((i - 1) / 2) fuel
    else l

/-- std::push_heap on the range [0, i]. -/
def siftUp (lt : Task → Task → Bool) (l : List Task) (i : Nat) : List Task :=
  siftUpAux lt l i i

/-- The loop of Pcp_PrimIndexer::RetryVariantTasks (primIndex.cpp
1127-1142): scan the task vector left to right; promote each fallback or
none-found variant task to an authored one and re-establish the heap
property on the prefix ending at it via push_heap.  The fuel is the
number of positions left to scan. -/
def retryLoop (lt : Task → Task → Bool) (l : List Task) (i fuel : Nat) :
    List Task :=
  match fuel with
  | 0 => l
  | fuel + 1 =>
    match l[i]? with
    | none => l
    | some t =>
      if t.type == .EvalNodeVariantFallback ||
          t.type == .EvalNodeVariantNoneFound then
        retryLoop lt (siftUp lt (l.set i (promoteTask t)) i) (i + 1) fuel
      else retryLoop lt l (i + 1) fuel

/-- Pcp_PrimIndexer::RetryVariantTasks (primIndex.cpp 1127-1142). -/
def RetryVariantTasks (s : Nat → Nat) (l : List Task) : List Task :=
  retryLoop (taskLT s) l 0 l.length

/-- The max-heap invariant of the task vector with respect to the priority
order: no parent compares lower than its child. -/
def IsHeap (lt : Task → Task → Bool) (l : List Task) : Prop :=
  ∀ j, 0 < j → j < l.length → lt (getT l ((j - 1) / 2)) (getT l j) = false

/-- The sift-up precondition: every heap edge holds except possibly the
one into position i, and the parent of position i still dominates the
children of position i (so the old parent value may move down into i). -/
def AlmostHeap (lt : Task → Task → Bool) (l : List Task) (i : Nat) : Prop :=
  (∀ j, 0 < j → j < l.length → j ≠ i →
    lt (getT l ((j - 1) / 2)) (getT l j) = false) ∧
  (∀ c, 0 < c → c < l.length → (c - 1) / 2 = i → i ≠ 0 →
    lt (getT l ((i - 1) / 2)) (getT l c) = false)

/-- Pcp_PrimIndexer::AddTask for a non-implied task type (primIndex.cpp
943-955): push the task at the back and sift it up. -/
def addTask (s : Nat → Nat) (l : List Task) (t : Task) : List Task :=
  siftUp (taskLT s) (l ++ [t]) l.length

/-- _AddVariantArc (primIndex.cpp 3925-3952): add the Variant arc via
_AddArc and, exactly when a node was inserted, rescan pending variant
tasks via RetryVariantTasks.  The _AddArc result is abstracted as the
optional inserted node; the task vector at retry time is the one after
insertion. -/
def AddVariantArcTasks (s : Nat → Nat) (insertedNode : Option NewNode)
    (tasks : List Task) : List Task :=
  match insertedNode with
  | some _ => RetryVariantTasks s tasks
  | none => tasks

/-! ## Culling (claim C3) -/

/-- A node as seen by _NodeCanBeCulled: flags, arc type, layer stack and
the introduction data consulted by the subroot-inherit exception.  The
culled flags of the direct children stand in for the already-culled
subtrees below the node. -/
structure CullNode where
  culled : Bool
  isRootNode : Bool
  depthBelowIntroduction : Nat
  hasSymmetry : Bool
  arcType : ArcType
  layerStack : Nat
  originIsParent : Bool
  pathAtIntroIsRootPrim : Bool
  originRootPathAtIntroIsRootPrim : Bool
  childrenCulled : List Bool
  hasSpecs : Bool
  inert : Bool
  restricted : Bool
deriving DecidableEq, Repr

/-- Modelled from the spec: PcpNodeRef::CanContributeSpecs (declared in
pcp/node.h, outside this source file).  Per the data model, an inert node
"contributes no opinions but remains for dependency tracking" and a
restricted node is permission-denied, so a node can contribute specs iff
it is neither inert nor restricted. -/
def cullCanContributeSpecs (n : CullNode) : Bool :=
  !n.inert && !n.restricted

/-- The intro-path test of the subroot-inherit exception (primIndex.cpp
4461-4472): the origin node is the node itself when origin == parent,
otherwise the origin root node. -/
def originIntroPathIsRootPrim (n : CullNode) : Bool :=
  if n.originIsParent then n.pathAtIntroIsRootPrim
  else n.originRootPathAtIntroIsRootPrim

/-- _NodeCanBeCulled (primIndex.cpp 4396-4489), deciding whether a node can
be culled from the graph, given the layer stack of the root site. -/
def NodeCanBeCulled (n : CullNode) (rootLayerStack : Nat) : Bool :=
  if n.culled then true
  else if n.isRootNode then false
  else if n.depthBelowIntroduction == 0 then false
  else if n.hasSymmetry then false
  else if n.arcType == .Inherit && n.layerStack == rootLayerStack &&
      !originIntroPathIsRootPrim n then false
  else if n.childrenCulled.any (fun c => !c) then false
  else if n.hasSpecs && cullCanContributeSpecs n then false
  else true

/-! ## Variant fallback decision (claim C4) -/

/-- A layer of the root site's layer stack as consulted by the standin
session-layer scan (primIndex.cpp 3877-3897): whether it is the root layer
(where the scan stops) and its authored variant selection for the set
under consideration at the root site path, if any. -/
structure SessionLayer where
  isRootLayer : Bool
  selection : Option String
deriving DecidableEq, Repr

/-- The session-layer scan of _ShouldUseVariantFallback (primIndex.cpp
3877-3897): walk the layer stack strong to weak until the root layer and
report whether some session layer authors exactly the resolved selection. -/
def sessionLayerHasVsel : List SessionLayer → String → Bool
  | [], _ => false
  | l :: rest, vsel =>
    if l.isRootLayer then false
    else l.selection == some vsel || sessionLayerHasVsel rest vsel

/-- The inputs of _ShouldUseVariantFallback (primIndex.cpp 3815-3906),
with the node that supplied the authored selection reduced to the fields
the function reads.  nodePathVariantSel is the variant selection carried
by that node's path, if its path is a prim variant selection path
(set name only; primIndex.cpp 3860-3862).  selfAndAncestorArcs lists the
arc types of the node and its ancestors, for the payload scan
(primIndex.cpp 3868-3872).  newStandinBehavior models the
PcpIsNewDefaultStandinBehaviorEnabled environment flag. -/
structure FallbackQuery where
  vset : String
  vsel : String
  vselFallback : String
  newStandinBehavior : Bool
  nodeArcType : ArcType
  nodePathVariantSel : Option String
  selfAndAncestorArcs : List ArcType
  rootLayers : List SessionLayer
deriving DecidableEq, Repr

/-- _ShouldUseVariantFallback (primIndex.cpp 3815-3906). -/
def ShouldUseVariantFallback (q : FallbackQuery) : Bool :=
  if q.vselFallback == "" then false
  else if q.vsel == "" then true
  else if q.vset != "standin" then false
  else if q.newStandinBehavior then false
  else if q.nodeArcType == .Variant && q.nodePathVariantSel == some q.vset then
    false
  else if q.selfAndAncestorArcs.any (fun t => t == .Payload) then true
  else if sessionLayerHasVsel q.rootLayers q.vsel then false
  else if q.nodeArcType != .Root then true
  else false

/-- The fallback decision exactly as the claim states it: yes if the
resolved authored selection is empty; yes if the set is the legacy
standin set and the selection comes from beneath a Payload arc or is not
in the session-layer chain while the new-default-standin-behavior flag is
off; no otherwise. -/
def claimFallbackDecision (q : FallbackQuery) : Prop :=
  q.vsel = "" ∨
  (q.vset = "standin" ∧ q.newStandinBehavior = false ∧
    (ArcType.Payload ∈ q.selfAndAncestorArcs ∨
     sessionLayerHasVsel q.rootLayers q.vsel = false))

instance (q : FallbackQuery) : Decidable (claimFallbackDecision q) := by
  unfold claimFallbackDecision; infer_instance

/-- The fallback decision as the code actually takes it: a fallback option
must exist, and either the authored selection is empty, or the set is the
legacy standin set, the new-behavior flag is off, the selection was not
already decided by a variant node for this set, and the selection either
comes from beneath a Payload arc or is neither a matching session-layer
opinion nor authored at the root node. -/
def amendedFallbackDecision (q : FallbackQuery) : Prop :=
  q.vselFallback ≠ "" ∧
  (q.vsel = "" ∨
   (q.vset = "standin" ∧ q.newStandinBehavior = false ∧
    ¬(q.nodeArcType = .Variant ∧ q.nodePathVariantSel = some q.vset) ∧
    (ArcType.Payload ∈ q.selfAndAncestorArcs ∨
     (sessionLayerHasVsel q.rootLayers q.vsel = false ∧
      q.nodeArcType ≠ .Root))))

instance (q : FallbackQuery) : Decidable (amendedFallbackDecision q) := by
  unfold amendedFallbackDecision; infer_instance

/-- What _EvalNodeAuthoredVariant does after resolving the selection
(primIndex.cpp 4026-4044): defer to the fallback task, mark the set as
none-found, or add the variant arc. -/
inductive VariantAction where
  | fallbackTask
  | noneFoundTask
  | addVariantArc
deriving DecidableEq, Repr

/-- The dispatch at the end of _EvalNodeAuthoredVariant (primIndex.cpp
4026-4044). -/
def authoredVariantAction (q : FallbackQuery) : VariantAction :=
  if ShouldUseVariantFallback q then .fallbackTask
  else if q.vsel == "" then .noneFoundTask
  else .addVariantArc

/-! ## Evaluator state (claims C5, C10) -/

/-- PcpPrimIndexOutputs::PayloadState. -/
inductive PayloadState where
  | NoPayload
  | IncludedByPredicate
  | ExcludedByPredicate
  | IncludedByIncludeSet
  | ExcludedByIncludeSet
deriving DecidableEq, Repr

/-- The state an arc evaluator can read and write: the graph (as the list
of child-arc sites added), the task queue, the outputs (payload state and
has-payloads bit, expression-variable dependencies) and the error lists. -/
structure IndexState where
  hasPayloads : Bool
  payloadState : PayloadState
  tasks : List Task
  childSites : List Site
  localErrors : List PcpError
  allErrors : List PcpError
  exprVarDeps : List Nat
deriving Repr

/-- Record one error into both error lists of the state. -/
def stateRecordError (err : PcpError) (st : IndexState) : IndexState :=
  let (loc, all) := RecordError err st.localErrors st.allErrors
  { st with localErrors := loc, allErrors := all }

/-- Record composed-site errors into the state, in order. -/
def stateRecordErrors (errs : List PcpError) (st : IndexState) : IndexState :=
  errs.foldl (fun st e => stateRecordError e st) st

/-- Add expression-variable dependencies when the composed set is
non-empty (primIndex.cpp 2120-2123, 2161-2164). -/
def stateAddExprVars (vars : List Nat) (st : IndexState) : IndexState :=
  if vars.isEmpty then st
  else { st with exprVarDeps := st.exprVarDeps ++ vars }

/-- _EvalNodeReferences (primIndex.cpp 2098-2134): bail when the node
cannot contribute specs; otherwise record the composed expression-variable
dependencies and composition errors and evaluate the authored reference
arcs (the arc loop is abstracted as the addArcsEffect parameter). -/
def evalNodeReferences (canContributeSpecs : Bool)
    (composedExprVars : List Nat) (composedErrors : List PcpError)
    (addArcsEffect : IndexState → IndexState) (st : IndexState) : IndexState :=
  if !canContributeSpecs then st
  else
    addArcsEffect (stateRecordErrors composedErrors
      (stateAddExprVars composedExprVars st))

/-- The inputs of _EvalNodePayloads (primIndex.cpp 2139-2262) besides the
state: whether the node can contribute specs, the composed payload data,
the enclosing stack frame's arc type and whether the index root site
equals the frame's requested site (for the ancestral-subroot test,
primIndex.cpp 2190-2194), and the payload inclusion inputs. -/
structure PayloadEvalInputs where
  canContributeSpecs : Bool
  payloadArcs : List Nat
  composedExprVars : List Nat
  composedErrors : List PcpError
  prevFrameArcType : Option ArcType
  rootSiteEqRequestedSite : Bool
  includedPayloads : Option (List SitePath)
  includePayloadPredicate : Option (SitePath → Bool)
  rootSitePath : SitePath

/-- The ancestral-payload-of-subroot-reference test (primIndex.cpp
2190-2194). -/
def isAncestralPayloadOfSubroot (inp : PayloadEvalInputs) : Bool :=
  match inp.prevFrameArcType with
  | some t =>
    (t == .Payload || t == .Reference) && !inp.rootSiteEqRequestedSite
  | none => false

/-- _EvalNodePayloads (primIndex.cpp 2139-2262).  The payload-arc
composition loop (_EvalRefOrPayloadArcs) is abstracted as the
addArcsEffect parameter; everything up to it mirrors the source. -/
def evalNodePayloads (inp : PayloadEvalInputs)
    (addArcsEffect : IndexState → IndexState) (st : IndexState) : IndexState :=
  if !inp.canContributeSpecs then st
  else
    let st := stateRecordErrors inp.composedErrors
      (stateAddExprVars inp.composedExprVars st)
    if inp.payloadArcs.isEmpty then st
    else
      let st := { st with hasPayloads := true }
      if !isAncestralPayloadOfSubroot inp then
        match inp.includedPayloads with
        | none => st
        | some includeSet =>
          match inp.includePayloadPredicate with
          | some pred =>
            let composePayload := pred inp.rootSitePath
            let st := { st with payloadState :=
              if composePayload then .IncludedByPredicate
              else .ExcludedByPredicate }
            if !composePayload then st else addArcsEffect st
          | none =>
            let composePayload := includeSet.contains inp.rootSitePath
            let st := { st with payloadState :=
              if composePayload then .IncludedByIncludeSet
              else .ExcludedByIncludeSet }
            if !composePayload then st else addArcsEffect st
      else addArcsEffect st

/-- _EvalNodeInherits (primIndex.cpp 3162-3185): bail when the node cannot
contribute specs; otherwise compose the inherit paths and add the
class-based arcs (abstracted as addClassArcsEffect). -/
def evalNodeInherits (canContributeSpecs : Bool)
    (addClassArcsEffect : IndexState → IndexState) (st : IndexState) :
    IndexState :=
  if !canContributeSpecs then st else addClassArcsEffect st

/-- _EvalNodeSpecializes (primIndex.cpp 3191-3214): same shape as the
inherits evaluator. -/
def evalNodeSpecializes (canContributeSpecs : Bool)
    (addClassArcsEffect : IndexState → IndexState) (st : IndexState) :
    IndexState :=
  if !canContributeSpecs then st else addClassArcsEffect st

/-- _EvalNodeVariantSets (primIndex.cpp 3954-3976): bail when the node
cannot contribute specs; otherwise enqueue one authored-variant task per
composed variant-set name, in authored order. -/
def evalNodeVariantSets (s : Nat → Nat) (canContributeSpecs : Bool)
    (node : Nat) (vsetNames : List String) (st : IndexState) : IndexState :=
  if !canContributeSpecs then st
  else
    { st with tasks :=
        (vsetNames.enum.foldl
          (fun ts nv => addTask s ts ⟨.EvalNodeVariantAuthored, node, nv.2, nv.1⟩)
          st.tasks) }

/-- _EvalNodeAuthoredVariant (primIndex.cpp 3978-4045): bail when the node
cannot contribute specs; otherwise resolve the selection (abstracted into
the FallbackQuery) and dispatch: enqueue the fallback task, enqueue the
none-found task, or add the variant arc (abstracted as
addVariantArcEffect). -/
def evalNodeAuthoredVariant (s : Nat → Nat) (canContributeSpecs : Bool)
    (node : Nat) (vsetNum : Nat) (q : FallbackQuery)
    (addVariantArcEffect : IndexState → IndexState) (st : IndexState) :
    IndexState :=
  if !canContributeSpecs then st
  else
    match authoredVariantAction q with
    | .fallbackTask =>
      let t : Task := ⟨.EvalNodeVariantFallback, node, q.vset, vsetNum⟩
      { st with tasks := addTask s st.tasks t }
    | .noneFoundTask =>
      let t : Task := ⟨.EvalNodeVariantNoneFound, node, q.vset, vsetNum⟩
      { st with tasks := addTask s st.tasks t }
    | .addVariantArc => addVariantArcEffect st

/-- _EvalNodeFallbackVariant (primIndex.cpp 4047 ff.): bail when the node
cannot contribute specs; otherwise re-compose the options and either add
the variant arc or enqueue the none-found task (abstracted as
fallbackEffect). -/
def evalNodeFallbackVariant (canContributeSpecs : Bool)
    (fallbackEffect : IndexState → IndexState) (st : IndexState) :
    IndexState :=
  if !canContributeSpecs then st else fallbackEffect st

/-- The culling rule exactly as the claim states it: a node can be culled
iff it contributes no opinions and neither does any descendant, except
that the root node, arc-introducing nodes, nodes carrying symmetry or
restricted permission, and root-layer-stack subroot-inherit nodes are
never culled. -/
def claimCullable (n : CullNode) (rootLayerStack : Nat) : Prop :=
  (¬(n.hasSpecs = true ∧ cullCanContributeSpecs n = true) ∧
    ∀ c ∈ n.childrenCulled, c = true) ∧
  n.isRootNode = false ∧
  n.depthBelowIntroduction ≠ 0 ∧
  n.hasSymmetry = false ∧
  n.restricted = false ∧
  ¬(n.arcType = .Inherit ∧ n.layerStack = rootLayerStack ∧
    originIntroPathIsRootPrim n = false)

/-- The culling rule with the one exception the code does not implement
removed: no special protection for restricted nodes. -/
def amendedCullable (n : CullNode) (rootLayerStack : Nat) : Prop :=
  (¬(n.hasSpecs = true ∧ cullCanContributeSpecs n = true) ∧
    ∀ c ∈ n.childrenCulled, c = true) ∧
  n.isRootNode = false ∧
  n.depthBelowIntroduction ≠ 0 ∧
  n.hasSymmetry = false ∧
  ¬(n.arcType = .Inherit ∧ n.layerStack = rootLayerStack ∧
    originIntroPathIsRootPrim n = false)

instance (n : CullNode) (r : Nat) : Decidable (claimCullable n r) := by
  unfold claimCullable; infer_instance

instance (n : CullNode) (r : Nat) : Decidable (amendedCullable n r) := by
  unfold amendedCullable; infer_instance

instance (lt : Task → Task → Bool) (l : List Task) : Decidable (IsHeap lt l) := by
  refine decidable_of_iff
    (∀ j < l.length, 0 < j → lt (getT l ((j - 1) / 2)) (getT l j) = false) ?_
  unfold IsHeap
  constructor
  · intro h j hj hlen; exact h j hlen hj
  · intro h j hlen hj; exact h j hj hlen

end Pcp

namespace Pcp

/-! # Theorems -/

/-! ## Claim C9: error recording -/

theorem recordAllErrors_local_eq_all (errs : List PcpError)
    (loc all : List PcpError) (h : loc = all) :
    (recordAllErrors errs (loc, all)).1 = (recordAllErrors errs (loc, all)).2 := by
  induction errs generalizing loc all with
  | nil => simpa [recordAllErrors]
  | cons e rest ih =>
    subst h
    simp only [recordAllErrors, RecordError]
    split
    · exact ih _ _ rfl
    · exact ih _ _ rfl

theorem recordAllErrors_cap_le_one (errs : List PcpError)
    (loc all : List PcpError) (t : ErrorType) (ht : isCapacityError t = true)
    (h : (all.filter (fun e => e.errorType == t)).length ≤ 1) :
    ((recordAllErrors errs (loc, all)).2.filter
      (fun e => e.errorType == t)).length ≤ 1 := by
  induction errs generalizing loc all with
  | nil => simpa [recordAllErrors]
  | cons e rest ih =>
    simp only [recordAllErrors, RecordError]
    split
    · exact ih _ _ h
    · rename_i hcond
      apply ih
      by_cases het : e.errorType = t
      · rw [het] at hcond
        rw [ht] at hcond
        simp only [Bool.true_and, Bool.not_eq_true] at hcond
        have hfilter : all.filter (fun x => x.errorType == t) = [] := by
          rw [List.filter_eq_nil_iff]
          intro x hx
          have := List.any_eq_false.mp hcond x hx
          simpa using this
        simp [List.filter_append, hfilter, het]
      · have : (e.errorType == t) = false := by simpa using het
        simp [List.filter_append, this]
        exact h

theorem recordAllErrors_cap_present (errs : List PcpError)
    (loc all : List PcpError) (t : ErrorType) :
    ((∃ e ∈ (recordAllErrors errs (loc, all)).2, e.errorType = t) ↔
      ((∃ e ∈ all, e.errorType = t) ∨ (∃ e ∈ errs, e.errorType = t))) := by
  induction errs generalizing loc all with
  | nil => simp [recordAllErrors]
  | cons e rest ih =>
    simp only [recordAllErrors, RecordError]
    split
    · rename_i hcond
      rw [ih]
      have hsplit : (∃ x ∈ e :: rest, x.errorType = t) ↔
          (e.errorType = t ∨ ∃ x ∈ rest, x.errorType = t) := by
        simp
      rw [hsplit]
      constructor
      · intro hc
        rcases hc with hl | hr
        · exact Or.inl hl
        · exact Or.inr (Or.inr hr)
      · intro hc
        rcases hc with hl | het | hr
        · exact Or.inl hl
        · -- e has type t and was dropped: an error of the same type is in all
          left
          have hany : all.any (fun y => y.errorType == e.errorType) = true :=
            ((Bool.and_eq_true _ _).mp hcond).2
          rcases List.any_eq_true.mp hany with ⟨y, hy, hyx⟩
          refine ⟨y, hy, ?_⟩
          have : y.errorType = e.errorType := by simpa using hyx
          rw [this, het]
        · exact Or.inr hr
    · rw [ih]
      constructor
      · intro hc
        rcases hc with ⟨x, hx, hxt⟩ | hr
        · rcases List.mem_append.mp hx with hx1 | hx2
          · exact Or.inl ⟨x, hx1, hxt⟩
          · have : x = e := by simpa using hx2
            subst this
            exact Or.inr ⟨x, List.mem_cons_self _ _, hxt⟩
        · rcases hr with ⟨x, hx, hxt⟩
          exact Or.inr ⟨x, List.mem_cons_of_mem _ hx, hxt⟩
      · intro hc
        rcases hc with ⟨x, hx, hxt⟩ | ⟨x, hx, hxt⟩
        · exact Or.inl ⟨x, List.mem_append.mpr (Or.inl hx), hxt⟩
        · rcases List.mem_cons.mp hx with rfl | hx2
          · exact Or.inl ⟨x, List.mem_append.mpr (Or.inr (by simp)), hxt⟩
          · exact Or.inr ⟨x, hx2, hxt⟩

theorem recordAllErrors_noncap_count (errs : List PcpError)
    (loc all : List PcpError) (e0 : PcpError)
    (h0 : isCapacityError e0.errorType = false) :
    (recordAllErrors errs (loc, all)).2.count e0 =
      all.count e0 + errs.count e0 := by
  induction errs generalizing loc all with
  | nil => simp [recordAllErrors]
  | cons e rest ih =>
    simp only [recordAllErrors, RecordError]
    split
    · rename_i hcond
      have hcap : isCapacityError e.errorType = true :=
        ((Bool.and_eq_true _ _).mp hcond).1
      have hne0 : (e == e0) = false := by
        apply beq_eq_false_iff_ne.mpr
        intro hEq
        rw [hEq] at hcap
        rw [hcap] at h0
        cases h0
      rw [ih _ _, List.count_cons, hne0]
      simp
    · rw [ih _ _, List.count_append, List.count_cons, List.count_cons,
        List.count_nil]
      omega

/-- Claim C9: every composition error recorded during indexing is appended
to both the prim index's local error list and the global all-errors list
(starting from empty lists the two stay equal), recording is total and
never aborts construction, and errors of the three capacity categories are
recorded at most once per category per index: their recorded count stays
at most one, a category is present exactly when it was reported, and every
non-capacity error is appended with its full multiplicity. -/
theorem claim_C9_record_errors (errs : List PcpError) :
    ((recordAllErrors errs ([], [])).1 = (recordAllErrors errs ([], [])).2) ∧
    (∀ t, isCapacityError t = true →
      ((recordAllErrors errs ([], [])).2.filter
          (fun e => e.errorType == t)).length ≤ 1) ∧
    (∀ t, ((∃ e ∈ (recordAllErrors errs ([], [])).2, e.errorType = t) ↔
      (∃ e ∈ errs, e.errorType = t))) ∧
    (∀ e0 : PcpError, isCapacityError e0.errorType = false →
      (recordAllErrors errs ([], [])).2.count e0 = errs.count e0) := by
  refine ⟨recordAllErrors_local_eq_all errs [] [] rfl, ?_, ?_, ?_⟩
  · intro t ht
    exact recordAllErrors_cap_le_one errs [] [] t ht (by simp)
  · intro t
    have := recordAllErrors_cap_present errs [] [] t
    simpa using this
  · intro e0 h0
    simpa using recordAllErrors_noncap_count errs [] [] e0 h0

/-- Witness for claim C9 at a concrete error sequence that contains a
non-capacity error and a duplicated capacity error. -/
theorem claim_C9_record_errors_witness :
    (((recordAllErrors
        [⟨.ArcCycle, 1⟩, ⟨.IndexCapacityExceeded, 0⟩,
         ⟨.IndexCapacityExceeded, 1⟩] ([], [])).2.filter
          (fun e => e.errorType == .IndexCapacityExceeded)).length ≤ 1) ∧
    ((recordAllErrors
        [⟨.ArcCycle, 1⟩, ⟨.IndexCapacityExceeded, 0⟩,
         ⟨.IndexCapacityExceeded, 1⟩] ([], [])).2.count ⟨.ArcCycle, 1⟩ =
      [(⟨.ArcCycle, 1⟩ : PcpError), ⟨.IndexCapacityExceeded, 0⟩,
       ⟨.IndexCapacityExceeded, 1⟩].count ⟨.ArcCycle, 1⟩) :=
  ⟨(claim_C9_record_errors _).2.1 .IndexCapacityExceeded (by decide),
   (claim_C9_record_errors _).2.2.2 ⟨.ArcCycle, 1⟩ (by decide)⟩

/-! ## Claim C10: evaluators bail on non-contributing nodes -/

/-- Claim C10: every direct-arc evaluator, called on a node whose
CanContributeSpecs() is false, returns immediately and leaves the state
(graph, task queue, outputs, error lists) unchanged, whatever the composed
site data and whatever the abstracted arc-insertion effects would do. -/
theorem claim_C10_evaluators_noop (s : Nat → Nat) (st : IndexState)
    (composedExprVars : List Nat) (composedErrors : List PcpError)
    (eff1 eff2 eff3 eff4 eff5 : IndexState → IndexState)
    (payloadArcs : List Nat) (prevFrameArcType : Option ArcType)
    (rootSiteEqRequestedSite : Bool) (includedPayloads : Option (List SitePath))
    (includePayloadPredicate : Option (SitePath → Bool))
    (rootSitePath : SitePath) (node vsetNum : Nat)
    (vsetNames : List String) (q : FallbackQuery) :
    evalNodeReferences false composedExprVars composedErrors eff1 st = st ∧
    evalNodePayloads
      ⟨false, payloadArcs, composedExprVars, composedErrors, prevFrameArcType,
       rootSiteEqRequestedSite, includedPayloads, includePayloadPredicate,
       rootSitePath⟩ eff2 st = st ∧
    evalNodeInherits false eff3 st = st ∧
    evalNodeSpecializes false eff4 st = st ∧
    evalNodeVariantSets s false node vsetNames st = st ∧
    evalNodeAuthoredVariant s false node vsetNum q eff5 st = st ∧
    evalNodeFallbackVariant false eff5 st = st := by
  refine ⟨rfl, rfl, rfl, rfl, rfl, rfl, rfl⟩

/-! ## Claim C5: payload excluded by the empty include set -/

/-- Claim C5: when a contributing node authors payloads, the arc is not an
ancestral payload of a sub-root reference/payload target, the
included-payloads set is present but empty and no include predicate is
given, _EvalNodePayloads sets the prim index's has-payloads bit, records
payload_state = ExcludedByIncludeSet in the outputs, and adds no Payload
child node (the state is independent of the arc-insertion effect, which is
never invoked). -/
theorem claim_C5_payload_excluded (payloadArcs : List Nat)
    (hne : payloadArcs ≠ []) (prevFrameArcType : Option ArcType)
    (rootSiteEqRequestedSite : Bool) (rootSitePath : SitePath)
    (hanc : isAncestralPayloadOfSubroot
      ⟨true, payloadArcs, [], [], prevFrameArcType, rootSiteEqRequestedSite,
       some [], none, rootSitePath⟩ = false)
    (addArcsEffect : IndexState → IndexState) (st : IndexState) :
    evalNodePayloads
      ⟨true, payloadArcs, [], [], prevFrameArcType, rootSiteEqRequestedSite,
       some [], none, rootSitePath⟩ addArcsEffect st =
    { st with hasPayloads := true, payloadState := .ExcludedByIncludeSet } := by
  unfold evalNodePayloads
  simp only [Bool.not_true, if_false, cond_eq_if]
  rw [hanc]
  have hE : payloadArcs.isEmpty = false := by
    cases payloadArcs with
    | nil => exact absurd rfl hne
    | cons a l => rfl
  simp [hE, stateRecordErrors, stateAddExprVars, recordAllErrors,
    List.contains]

/-- Witness for claim C5: a single payload arc on a top-level index with
an empty include set; the insertion effect chosen would visibly change the
state, demonstrating it is not invoked. -/
theorem claim_C5_payload_excluded_witness :
    evalNodePayloads
      ⟨true, [0], [], [], none, true, some [], none, [1]⟩
      (fun s => { s with childSites := s.childSites ++ [⟨9, [9]⟩] })
      ⟨false, .NoPayload, [], [], [], [], []⟩ =
    ⟨true, .ExcludedByIncludeSet, [], [], [], [], []⟩ :=
  claim_C5_payload_excluded [0] (by simp) none true [1] (by rfl)
    (fun s => { s with childSites := s.childSites ++ [⟨9, [9]⟩] })
    ⟨false, .NoPayload, [], [], [], [], []⟩

/-! ## Claim C3: culling rule -/

/-- Counterexample to claim C3: a non-root Reference node at depth one
below its introduction, with no symmetry and no children, that carries a
spec but is restricted.  The claim's exceptions say a node with restricted
permission is never culled; _NodeCanBeCulled culls it (a restricted node
cannot contribute specs, and nothing in the function protects it). -/
theorem claim_C3_culling_counterexample :
    NodeCanBeCulled
      ⟨false, false, 1, false, .Reference, 1, true, true, true, [], true,
       false, true⟩ 0 = true ∧
    ¬ claimCullable
      ⟨false, false, 1, false, .Reference, 1, true, true, true, [], true,
       false, true⟩ 0 := by
  constructor
  · decide
  · decide

/-- Claim C3 as amended: for a node not already culled, _NodeCanBeCulled
holds iff the node contributes no opinions (no spec, or unable to
contribute specs) and every direct child subtree was culled, and none of
the implemented exceptions applies: it is not the root node, not at
depth-below-introduction zero, carries no symmetry, and is not a
root-layer-stack subroot-inherit node.  (The claim's additional exception
for restricted nodes is not implemented; restriction merely makes the node
non-contributing.) -/
theorem claim_C3_culling_amended (n : CullNode) (rootLayerStack : Nat)
    (h : n.culled = false) :
    (NodeCanBeCulled n rootLayerStack = true ↔
      amendedCullable n rootLayerStack) := by
  unfold NodeCanBeCulled amendedCullable
  rw [if_neg (by rw [h]; exact Bool.false_ne_true)]
  constructor
  · intro hc
    split at hc
    · simp_all
    · split at hc
      · simp_all
      · split at hc
        · simp_all
        · split at hc
          · simp_all
          · split at hc
            · simp_all
            · split at hc
              · simp_all
              · rename_i h1 h2 h3 h4 h5 h6
                refine ⟨⟨?_, ?_⟩, ?_, ?_, ?_, ?_⟩
                · intro hcon
                  exact h6 (by simp [hcon.1, hcon.2])
                · intro c hcmem
                  by_contra hcf
                  have : c = false := by
                    cases c
                    · rfl
                    · exact absurd rfl hcf
                  apply h5
                  rw [List.any_eq_true]
                  exact ⟨c, hcmem, by simp [this]⟩
                · simpa using h1
                · simpa using h2
                · simpa using h3
                · intro hinherit
                  exact h4 (by simp [hinherit.1, hinherit.2.1, hinherit.2.2])
  · intro ha
    obtain ⟨⟨hop, hch⟩, hroot, hdepth, hsym, hinh⟩ := ha
    rw [if_neg (by simp [hroot]), if_neg (by simpa using hdepth),
      if_neg (by simp [hsym])]
    have hc1 : ¬(n.arcType == ArcType.Inherit &&
        (n.layerStack == rootLayerStack) &&
        !originIntroPathIsRootPrim n) = true := by
      intro hcon
      apply hinh
      rcases Bool.and_eq_true _ _ |>.mp hcon with ⟨h12, h3⟩
      rcases Bool.and_eq_true _ _ |>.mp h12 with ⟨h1, h2⟩
      refine ⟨by simpa using h1, by simpa using h2, by simpa using h3⟩
    have hc2 : ¬(n.childrenCulled.any fun c => !c) = true := by
      intro hcon
      rcases List.any_eq_true.mp hcon with ⟨c, hcmem, hcv⟩
      have := hch c hcmem
      rw [this] at hcv
      simp at hcv
    have hc3 : ¬(n.hasSpecs && cullCanContributeSpecs n) = true := by
      intro hcon
      rcases Bool.and_eq_true _ _ |>.mp hcon with ⟨hs, hc⟩
      exact hop ⟨hs, hc⟩
    rw [if_neg hc1, if_neg hc2, if_neg hc3]

/-- Witness for amended claim C3: a childless reference node with no spec
can be culled; the same node with a spec it can contribute cannot. -/
theorem claim_C3_culling_amended_witness :
    (NodeCanBeCulled
      ⟨false, false, 1, false, .Reference, 1, true, true, true, [], false,
       false, false⟩ 0 = true ↔
      amendedCullable
      ⟨false, false, 1, false, .Reference, 1, true, true, true, [], false,
       false, false⟩ 0) ∧
    (NodeCanBeCulled
      ⟨false, false, 1, false, .Reference, 1, true, true, true, [], true,
       false, false⟩ 0 = true ↔
      amendedCullable
      ⟨false, false, 1, false, .Reference, 1, true, true, true, [], true,
       false, false⟩ 0) :=
  ⟨claim_C3_culling_amended _ 0 rfl, claim_C3_culling_amended _ 0 rfl⟩

/-! ## Claim C4: variant fallback decision -/

/-- Counterexample to claim C4: with an empty resolved authored selection
but no available fallback option, the claim's decision rule answers
"use the fallback" (selection is empty), yet _ShouldUseVariantFallback
answers no (it first requires a nonempty fallback), so
_EvalNodeAuthoredVariant enqueues EvalNodeVariantNoneFound instead of
EvalNodeVariantFallback. -/
theorem claim_C4_variant_fallback_counterexample :
    ShouldUseVariantFallback ⟨"v", "", "", false, .Root, none, [], []⟩ =
      false ∧
    claimFallbackDecision ⟨"v", "", "", false, .Root, none, [], []⟩ ∧
    authoredVariantAction ⟨"v", "", "", false, .Root, none, [], []⟩ =
      .noneFoundTask := by
  refine ⟨by decide, by decide, by decide⟩

/-- Claim C4 as amended: the fallback is used iff a fallback option exists
and either the resolved authored selection is empty, or the set is the
legacy standin set with the new-default-standin-behavior flag off, the
selection was not already decided by a variant node for this set, and the
selection either comes from beneath a Payload arc or is neither a matching
session-layer opinion nor authored at the root node.  The dispatch is as
the claim states: fallback decision yields the EvalNodeVariantFallback
task, an empty selection without fallback yields EvalNodeVariantNoneFound,
and otherwise AddVariantArc is called. -/
theorem claim_C4_variant_fallback_amended (q : FallbackQuery) :
    (ShouldUseVariantFallback q = true ↔ amendedFallbackDecision q) ∧
    (authoredVariantAction q = .fallbackTask ↔
      ShouldUseVariantFallback q = true) ∧
    (authoredVariantAction q = .noneFoundTask ↔
      (ShouldUseVariantFallback q = false ∧ q.vsel = "")) ∧
    (authoredVariantAction q = .addVariantArc ↔
      (ShouldUseVariantFallback q = false ∧ q.vsel ≠ "")) := by
  refine ⟨?_, ?_, ?_, ?_⟩
  · unfold ShouldUseVariantFallback amendedFallbackDecision
    split_ifs with h1 h2 h3 h4 h5 h6 h7 h8 <;>
      simp_all [List.any_eq_true]
  · unfold authoredVariantAction
    split_ifs with h1 h2 <;> simp_all
  · unfold authoredVariantAction
    split_ifs with h1 h2 <;> simp_all
  · unfold authoredVariantAction
    split_ifs with h1 h2 <;> simp_all

/-! ## Claim C2: permission enforcement -/

theorem enforceRec_some (pn : PermNode) (l : List PermNode) :
    enforceRec (some pn) l =
      (l.map restrictIfContributes,
       (l.filter (fun n => triggersPermissionError n)).map
         (fun n => (n.site, pn.site))) := by
  induction l with
  | nil => simp [enforceRec]
  | cons n rest ih =>
    cases hval : n.canContributeSpecs with
    | false =>
      simp only [enforceRec, hval, Bool.not_false, if_true, ih]
      simp [restrictIfContributes, triggersPermissionError, hval]
    | true =>
      simp only [enforceRec, hval, Bool.not_true, Bool.false_eq_true,
        if_false, ih]
      cases hspec : (n.hasSpecs && n.layerHasSpec.any (fun b => b)) with
      | false =>
        simp [restrictIfContributes, triggersPermissionError, hval, hspec]
      | true =>
        simp [restrictIfContributes, triggersPermissionError, hval, hspec]

theorem enforceRec_none_no_private (l : List PermNode)
    (h : ∀ n ∈ l, ¬ isPrivateContributor n) :
    enforceRec none l = (l, []) := by
  induction l with
  | nil => simp [enforceRec]
  | cons n rest ih =>
    have ihr := ih (fun m hm => h m (List.mem_cons_of_mem _ hm))
    cases hval : n.canContributeSpecs with
    | false =>
      simp [enforceRec, hval, ihr]
    | true =>
      have hpub : n.permission = .Public := by
        by_contra hne
        exact h n (List.mem_cons_self _ _) ⟨hval, hne⟩
      simp [enforceRec, hval, hpub, ihr]

theorem enforceRec_none_split (l1 : List PermNode) (pn : PermNode)
    (l2 : List PermNode) (h1 : ∀ n ∈ l1, ¬ isPrivateContributor n)
    (hpn : isPrivateContributor pn) :
    enforceRec none (l1 ++ pn :: l2) =
      (l1 ++ pn :: (l2.map restrictIfContributes),
       (l2.filter (fun n => triggersPermissionError n)).map
         (fun n => (n.site, pn.site))) := by
  induction l1 with
  | nil =>
    have hcan : pn.canContributeSpecs = true := hpn.1
    have hperm : (pn.permission != SdfPermission.Public) = true := by
      simpa using hpn.2
    simp [enforceRec, hcan, hperm, enforceRec_some]
  | cons n rest ih =>
    have ihr := ih (fun m hm => h1 m (List.mem_cons_of_mem _ hm))
    cases hval : n.canContributeSpecs with
    | false =>
      simp [enforceRec, hval, ihr]
    | true =>
      have hpub : n.permission = .Public := by
        by_contra hne
        exact h1 n (List.mem_cons_self _ _) ⟨hval, hne⟩
      simp [enforceRec, hval, hpub, ihr]

/-- Claim C2: _EnforcePermissions walks the strength-ordered node list
maintaining a seen-private node.  With pn the weakest node that can
contribute specs and whose permission is not Public (every weaker node
fails that test), every stronger node that could contribute specs gets
restricted = true, and exactly those stronger contributing nodes that
actually have a spec in some layer produce a PrimPermissionDenied error
naming pn's site as the private site; nodes at or below pn are unchanged.
When no node can both contribute and carry a non-Public permission, the
pass changes nothing and emits nothing. -/
theorem claim_C2_enforce_permissions (pre post : List PermNode)
    (pn : PermNode) (hpn : isPrivateContributor pn)
    (hpost : ∀ n ∈ post, ¬ isPrivateContributor n) :
    (EnforcePermissions (pre ++ pn :: post) =
      (pre.map restrictIfContributes ++ pn :: post,
       ((pre.filter (fun n => triggersPermissionError n)).map
         (fun n => (n.site, pn.site))).reverse)) ∧
    (∀ nodes : List PermNode, (∀ n ∈ nodes, ¬ isPrivateContributor n) →
      EnforcePermissions nodes = (nodes, [])) := by
  constructor
  · unfold EnforcePermissions
    have hrev : (pre ++ pn :: post).reverse =
        post.reverse ++ pn :: pre.reverse := by
      simp
    rw [hrev]
    rw [enforceRec_none_split post.reverse pn pre.reverse
      (fun n hn => hpost n (List.mem_reverse.mp hn)) hpn]
    simp [List.filter_reverse, List.map_reverse]
  · intro nodes hnone
    unfold EnforcePermissions
    rw [enforceRec_none_no_private nodes.reverse
      (fun n hn => hnone n (List.mem_reverse.mp hn))]
    simp

/-- Witness for claim C2: a three-node index whose middle node is private;
the strongest node carries a spec and is restricted and reported, the
weakest is untouched. -/
theorem claim_C2_enforce_permissions_witness :
    EnforcePermissions
      [⟨⟨0, [1]⟩, true, .Public, false, true, [true]⟩,
       ⟨⟨1, [2]⟩, true, .Private, false, true, [true]⟩,
       ⟨⟨2, [3]⟩, true, .Public, false, false, []⟩] =
      ([⟨⟨0, [1]⟩, true, .Public, true, true, [true]⟩,
        ⟨⟨1, [2]⟩, true, .Private, false, true, [true]⟩,
        ⟨⟨2, [3]⟩, true, .Public, false, false, []⟩],
       [(⟨0, [1]⟩, ⟨1, [2]⟩)]) := by
  have h := (claim_C2_enforce_permissions
    [⟨⟨0, [1]⟩, true, .Public, false, true, [true]⟩]
    [⟨⟨2, [3]⟩, true, .Public, false, false, []⟩]
    ⟨⟨1, [2]⟩, true, .Private, false, true, [true]⟩
    (by constructor <;> simp)
    (by intro n hn; simp at hn; subst hn; intro hc; exact hc.2 rfl)).1
  simpa [restrictIfContributes, triggersPermissionError] using h

/-! ## Claim C7: the salted-earth rule -/

theorem pathLtB_of_isPrefixOf (p k : SitePath) (h : p.isPrefixOf k = true) :
    pathLtB k p = false := by
  induction p generalizing k with
  | nil => cases k <;> rfl
  | cons a as ih =>
    cases k with
    | nil => simp [List.isPrefixOf] at h
    | cons c ks =>
      simp only [List.isPrefixOf, Bool.and_eq_true, beq_iff_eq] at h
      obtain ⟨rfl, hpre⟩ := h
      simp [pathLtB, ih ks hpre]

theorem pathLtB_asymm (a b : SitePath) (h : pathLtB a b = true) :
    pathLtB b a = false := by
  induction a generalizing b with
  | nil =>
    cases b with
    | nil => simp [pathLtB] at h
    | cons x xs => rfl
  | cons x xs ih =>
    cases b with
    | nil => simp [pathLtB] at h
    | cons y ys =>
      simp only [pathLtB] at h ⊢
      split at h
      · rename_i hxy
        rw [if_neg (by omega), if_pos hxy]
      · split at h
        · cases h
        · rename_i hxy hyx
          rw [if_neg hyx, if_neg hxy]
          exact ih ys h

theorem pathLtB_prefix_between (p q k : SitePath)
    (hq : pathLtB q p = false) (hnpq : p.isPrefixOf q = false)
    (hpk : p.isPrefixOf k = true) : pathLtB k q = true := by
  induction p generalizing q k with
  | nil => simp [List.isPrefixOf] at hnpq
  | cons a as ih =>
    cases q with
    | nil => simp [pathLtB] at hq
    | cons b bs =>
      cases k with
      | nil => simp [List.isPrefixOf] at hpk
      | cons c ks =>
        simp only [List.isPrefixOf, Bool.and_eq_true, beq_iff_eq] at hpk
        obtain ⟨rfl, hpre⟩ := hpk
        simp only [pathLtB] at hq ⊢
        split at hq
        · cases hq
        · rename_i hba
          split at hq
          · rename_i hab
            rw [if_pos hab]
          · rename_i hab
            have hEq : a = b := by omega
            subst hEq
            rw [if_neg hab, if_neg hba]
            apply ih bs ks hq _ hpre
            simpa [List.isPrefixOf] using hnpq

theorem saltedEarthHit_iff (l : List SitePath) (p : SitePath)
    (hs : l.Pairwise (fun a b => pathLtB a b = true)) :
    (saltedEarthHit l p = true ↔ ∃ k ∈ l, pathHasPfx k p = true) := by
  induction l with
  | nil => simp [saltedEarthHit, lowerBoundKey]
  | cons x xs ih =>
    have hpair := List.pairwise_cons.mp hs
    cases hx : pathLtB x p with
    | false =>
      have hfind : saltedEarthHit (x :: xs) p = pathHasPfx x p := by
        simp [saltedEarthHit, lowerBoundKey, List.find?, hx]
      rw [hfind]
      constructor
      · intro hpfx
        exact ⟨x, List.mem_cons_self _ _, hpfx⟩
      · intro hex
        rcases hex with ⟨k, hk, hpk⟩
        rcases List.mem_cons.mp hk with rfl | hk2
        · exact hpk
        · by_contra hnx
          have hnx2 : p.isPrefixOf x = false := by
            unfold pathHasPfx at hnx
            exact Bool.eq_false_iff.mpr hnx
          have hltk : pathLtB k x = true :=
            pathLtB_prefix_between p x k hx hnx2
              (by simpa only [pathHasPfx] using hpk)
          have hltx : pathLtB x k = true := hpair.1 k hk2
          rw [pathLtB_asymm x k hltx] at hltk
          cases hltk
    | true =>
      have hfind : saltedEarthHit (x :: xs) p = saltedEarthHit xs p := by
        simp [saltedEarthHit, lowerBoundKey, List.find?, hx]
      rw [hfind, ih hpair.2]
      constructor
      · intro hex
        rcases hex with ⟨k, hk, hpk⟩
        exact ⟨k, List.mem_cons_of_mem _ hk, hpk⟩
      · intro hex
        rcases hex with ⟨k, hk, hpk⟩
        rcases List.mem_cons.mp hk with rfl | hk2
        · rw [pathLtB_of_isPrefixOf p k (by simpa only [pathHasPfx] using hpk)] at hx
          cases hx
        · exact ⟨k, hk2, hpk⟩

/-- Claim C7: in _AddArc, when the arc contributes direct opinions and
includes ancestral opinions and the target site's layer stack relocates a
source at or beneath the child site path, the direct-contributes flag is
cleared before the node is created, and the created node is inert.  The
lower_bound test of the source is exactly the existence of such a
relocation source (first conjunct), given the relocation map's keys in
sorted order. -/
theorem claim_C7_salted_earth (relocSources : List SitePath)
    (sitePath : SitePath)
    (hsorted : relocSources.Pairwise (fun a b => pathLtB a b = true))
    (parent origin : PcpNode) (frames : List StackFrame) (ls : Nat)
    (arcType : ArcType) (errors : List PcpError)
    (hncyc : CheckForCycle parent origin arcType ⟨ls, sitePath⟩ frames = none)
    (hreloc : ∃ src ∈ relocSources, pathHasPfx src sitePath = true) :
    (saltedEarthHit relocSources sitePath = true ↔
      ∃ src ∈ relocSources, pathHasPfx src sitePath = true) ∧
    addArcDirectContributes true true relocSources sitePath = false ∧
    (AddArcModel arcType parent origin frames ⟨ls, sitePath⟩ true true
      relocSources false errors).1 = some ⟨⟨ls, sitePath⟩, true⟩ := by
  have hiff := saltedEarthHit_iff relocSources sitePath hsorted
  have hhit : saltedEarthHit relocSources sitePath = true := hiff.mpr hreloc
  have hdirect : addArcDirectContributes true true relocSources sitePath =
      false := by
    simp [addArcDirectContributes, hhit]
  refine ⟨hiff, hdirect, ?_⟩
  unfold AddArcModel
  rw [hncyc]
  simp only [if_false, Bool.false_eq_true]
  rw [hdirect]
  by_cases hroot : sitePath = []
  · subst hroot
    rfl
  · have : (sitePath == ([] : SitePath)) = false := by
      simpa using hroot
    simp [this]

/-- Witness for claim C7: a relocation map with one source beneath the
child site path; the arc is added as an inert node. -/
theorem claim_C7_salted_earth_witness :
    addArcDirectContributes true true [[1, 2]] [1] = false ∧
    (AddArcModel .Reference (.root 0 ⟨0, [5]⟩) (.root 0 ⟨0, [5]⟩) []
      ⟨1, [1]⟩ true true [[1, 2]] false []).1 = some ⟨⟨1, [1]⟩, true⟩ :=
  ⟨(claim_C7_salted_earth [[1, 2]] [1] (by simp) (.root 0 ⟨0, [5]⟩)
      (.root 0 ⟨0, [5]⟩) [] 1 .Reference [] (by decide)
      ⟨[1, 2], by simp, by decide⟩).2.1,
   (claim_C7_salted_earth [[1, 2]] [1] (by simp) (.root 0 ⟨0, [5]⟩)
      (.root 0 ⟨0, [5]⟩) [] 1 .Reference [] (by decide)
      ⟨[1, 2], by simp, by decide⟩).2.2⟩

/-! ## Claim C6: empty prim path and the default-prim placeholder -/

/-- Counterexample to claim C6: an internal reference (the target layer
stack is the parent's own) with an empty authored prim path and no default
prim in the target layer.  UnresolvedPrimPath is recorded as the claim
says, but the placeholder arc to the absolute root is NOT added: the
absolute root site shares the parent's layer stack and its path is a
prefix of the parent's, so _AddArc's cycle check rejects it with an
ArcCycle error and no node is created. -/
theorem claim_C6_default_prim_counterexample :
    (evalRefPayloadEmptyPrimPath .Reference (.root 0 ⟨0, [1]⟩) [] 0 none []
      false []).1 = none ∧
    (evalRefPayloadEmptyPrimPath .Reference (.root 0 ⟨0, [1]⟩) [] 0 none []
      false []).2 =
      [⟨.UnresolvedPrimPath, 0⟩, ⟨.ArcCycle, 0⟩] := by
  constructor
  · decide
  · decide

/-- Claim C6 as amended: when a reference or payload is authored with an
empty prim path, the target layer's default prim is consulted.  If it is
absent, an UnresolvedPrimPath error is recorded and an arc targeting the
absolute root is added with its subtree marked inert, provided _AddArc's
cycle check accepts the placeholder site (for an internal reference the
absolute-root site shares an ancestor's layer stack and is rejected as a
cycle instead).  If a default prim is present, the arc targets it and
contributes direct opinions. -/
theorem claim_C6_default_prim_amended (arcType : ArcType) (parent : PcpNode)
    (frames : List StackFrame) (targetLS : Nat)
    (relocSources : List SitePath) (errors : List PcpError) :
    (CheckForCycle parent parent arcType ⟨targetLS, []⟩ frames = none →
      evalRefPayloadEmptyPrimPath arcType parent frames targetLS none
        relocSources false errors =
      (some ⟨⟨targetLS, []⟩, true⟩,
       errors ++ [⟨.UnresolvedPrimPath, 0⟩])) ∧
    (∀ t : Nat,
      CheckForCycle parent parent arcType ⟨targetLS, [t]⟩ frames = none →
      evalRefPayloadEmptyPrimPath arcType parent frames targetLS (some t)
        relocSources false errors =
      (some ⟨⟨targetLS, [t]⟩, false⟩, errors)) := by
  constructor
  · intro hcyc
    unfold evalRefPayloadEmptyPrimPath getDefaultPrimPath AddArcModel
    simp [hcyc, addArcDirectContributes]
  · intro t hcyc
    unfold evalRefPayloadEmptyPrimPath getDefaultPrimPath AddArcModel
    simp [hcyc, addArcDirectContributes, isRootPrimPath]

/-- Witness for amended claim C6: an external reference target (a distinct
layer stack) passes the cycle check; without a default prim the inert
placeholder at the absolute root is created, with one the arc targets the
default prim. -/
theorem claim_C6_default_prim_amended_witness :
    (evalRefPayloadEmptyPrimPath .Reference (.root 0 ⟨0, [1]⟩) [] 1 none []
      false [] =
      (some ⟨⟨1, []⟩, true⟩, [⟨.UnresolvedPrimPath, 0⟩])) ∧
    (evalRefPayloadEmptyPrimPath .Reference (.root 0 ⟨0, [1]⟩) [] 1 (some 7)
      [] false [] =
      (some ⟨⟨1, [7]⟩, false⟩, [])) :=
  ⟨(claim_C6_default_prim_amended .Reference (.root 0 ⟨0, [1]⟩) [] 1 []
      []).1 (by decide),
   (claim_C6_default_prim_amended .Reference (.root 0 ⟨0, [1]⟩) [] 1 []
      []).2 7 (by decide)⟩

/-! ## Claim C1: the cycle check in _AddArc -/

theorem hasAncestorCycle_iff (a b : Site) :
    hasAncestorCycle a b = true ↔
      (a.layerStack = b.layerStack ∧
       (pathHasPfx a.path b.path = true ∨ pathHasPfx b.path a.path = true)) := by
  simp [hasAncestorCycle]

theorem findAncestorCycleInParentGraph_iff (n : PcpNode) (cs : Site) :
    findAncestorCycleInParentGraph n cs = true ↔
      ∃ s ∈ graphAncestors n, hasAncestorCycle s cs = true := by
  induction n with
  | root i s => simp [findAncestorCycleInParentGraph, graphAncestors]
  | child i t s p ih =>
    simp [findAncestorCycleInParentGraph, graphAncestors, ih]

theorem findCycleAcrossFrames_iff (frames : List StackFrame) (n : PcpNode)
    (cs : Site) :
    findCycleAcrossFrames n frames cs = true ↔
      ∃ pr ∈ walkPairs n frames cs, hasAncestorCycle pr.1 pr.2 = true := by
  induction frames generalizing n cs with
  | nil =>
    simp [findCycleAcrossFrames, walkPairs,
      findAncestorCycleInParentGraph_iff]
  | cons f rest ih =>
    simp only [findCycleAcrossFrames, walkPairs, Bool.or_eq_true,
      findAncestorCycleInParentGraph_iff, ih, List.mem_append, List.mem_map]
    constructor
    · intro hc
      rcases hc with ⟨s, hs, hcy⟩ | ⟨pr, hpr, hcy⟩
      · exact ⟨(s, cs), Or.inl ⟨s, hs, rfl⟩, hcy⟩
      · exact ⟨pr, Or.inr hpr, hcy⟩
    · intro hc
      rcases hc with ⟨pr, hl | hr, hcy⟩
      · rcases hl with ⟨s, hs, rfl⟩
        exact Or.inl ⟨s, hs, hcy⟩
      · exact Or.inr ⟨pr, hr, hcy⟩

theorem exemptSkip_eq_find (parent origin : PcpNode)
    (hpo : (parent != origin) = true) (frames : List StackFrame) :
    ∀ n : PcpNode,
      (match exemptSkip parent origin n frames with
       | some (m, g) => iterArcType m g == ArcType.Relocate
       | none => false) =
      (((iterChain n frames).map Prod.snd).find?
        (fun t => !PcpIsClassBasedArc t) == some ArcType.Relocate) := by
  induction frames with
  | nil =>
    intro n
    induction n with
      | root i s =>
        have hred : exemptSkip parent origin (.root i s) [] =
            some (.root i s, []) := by
          rw [exemptSkip]
          simp [iterArcType, impliedClassBasedArc, PcpIsClassBasedArc]
        rw [hred]
        simp [iterArcType, iterChain, List.find?, PcpIsClassBasedArc]
      | child i t s p ihp =>
        cases hct : PcpIsClassBasedArc t with
          | true =>
            have hred : exemptSkip parent origin (.child i t s p) [] =
                exemptSkip parent origin p [] := by
              rw [exemptSkip]
              simp [iterArcType, impliedClassBasedArc, hct, hpo, iterNext]
            rw [hred, ihp]
            simp [iterChain, List.find?, hct]
          | false =>
            have hred : exemptSkip parent origin (.child i t s p) [] =
                some (.child i t s p, []) := by
              rw [exemptSkip]
              simp [iterArcType, impliedClassBasedArc, hct]
            rw [hred]
            simp [iterArcType, iterChain, List.find?, hct]
  | cons f rest ihf =>
    intro n
    induction n with
      | root i s =>
        cases hct : PcpIsClassBasedArc f.arcToParentType with
          | true =>
            have hred : exemptSkip parent origin (.root i s) (f :: rest) =
                exemptSkip parent origin f.parentNode rest := by
              rw [exemptSkip]
              simp [iterArcType, impliedClassBasedArc, hct, hpo, iterNext]
            rw [hred, ihf]
            simp [iterChain, List.find?, hct]
          | false =>
            have hred : exemptSkip parent origin (.root i s) (f :: rest) =
                some (.root i s, f :: rest) := by
              rw [exemptSkip]
              simp [iterArcType, impliedClassBasedArc, hct]
            rw [hred]
            simp [iterArcType, iterChain, List.find?, hct]
      | child i t s p ihp =>
        cases hct : PcpIsClassBasedArc t with
          | true =>
            have hred : exemptSkip parent origin (.child i t s p)
                (f :: rest) = exemptSkip parent origin p (f :: rest) := by
              rw [exemptSkip]
              simp [iterArcType, impliedClassBasedArc, hct, hpo, iterNext]
            rw [hred, ihp]
            simp [iterChain, List.find?, hct]
          | false =>
            have hred : exemptSkip parent origin (.child i t s p)
                (f :: rest) = some (.child i t s p, f :: rest) := by
              rw [exemptSkip]
              simp [iterArcType, impliedClassBasedArc, hct]
            rw [hred]
            simp [iterArcType, iterChain, List.find?, hct]

theorem cycleExempt_iff (arcType : ArcType) (parent origin : PcpNode)
    (frames : List StackFrame) :
    cycleExempt arcType parent origin frames = true ↔
      claimExempt arcType parent origin frames := by
  unfold cycleExempt claimExempt
  cases hcl : PcpIsClassBasedArc arcType with
  | false =>
    simp [impliedClassBasedArc, hcl]
  | true =>
    cases hpo : (parent != origin) with
    | false =>
      have : parent = origin := by simpa using hpo
      simp [impliedClassBasedArc, hcl, hpo, this]
    | true =>
      have hne : parent ≠ origin := by simpa using hpo
      rw [if_pos (by simp [impliedClassBasedArc, hcl, hpo])]
      rw [exemptSkip_eq_find parent origin hpo frames parent]
      simp [hcl, hne]

/-- Claim C1: _CheckForCycle rejects an arc exactly when the arc is not a
variant arc, is not an exempt implied class-based arc under a Relocate,
and walking from the parent to the graph root across recursive stack
frames finds an ancestor sharing its layer stack with the (per-frame
translated) child site with one path a prefix of the other.  On rejection
the ArcCycle error lists the chain from root to the offending site, and
_AddArc records it and creates no node. -/
theorem claim_C1_cycle_check (parent origin : PcpNode) (arcType : ArcType)
    (childSite : Site) (frames : List StackFrame)
    (direct includeAncestral : Bool) (relocSources : List SitePath)
    (duplicateFound : Bool) (errors : List PcpError) :
    ((CheckForCycle parent origin arcType childSite frames).isSome = true ↔
      (arcType ≠ .Variant ∧ ¬ claimExempt arcType parent origin frames ∧
       claimCycleExists parent frames childSite)) ∧
    (∀ err, CheckForCycle parent origin arcType childSite frames = some err →
      (err.cycle =
        (iterChain parent frames).reverse ++ [(childSite, arcType)] ∧
       AddArcModel arcType parent origin frames childSite direct
         includeAncestral relocSources duplicateFound errors =
         (none, errors ++ [⟨.ArcCycle, 0⟩]))) := by
  constructor
  · unfold CheckForCycle
    cases hex : cycleExempt arcType parent origin frames with
    | true =>
      have hclaim := (cycleExempt_iff arcType parent origin frames).mp hex
      simp [hclaim]
    | false =>
      have hnclaim : ¬ claimExempt arcType parent origin frames := by
        intro hc
        rw [(cycleExempt_iff arcType parent origin frames).mpr hc] at hex
        cases hex
      cases hvar : (arcType == ArcType.Variant) with
      | true =>
        have : arcType = .Variant := by simpa using hvar
        simp [this]
      | false =>
        have hne : arcType ≠ .Variant := by simpa using hvar
        cases hfind : findCycleAcrossFrames parent frames childSite with
        | true =>
          have hcy := (findCycleAcrossFrames_iff frames parent childSite).mp
            hfind
          simp only [if_false, Bool.false_eq_true, hfind, if_true,
            Option.isSome_some, true_iff]
          refine ⟨hne, hnclaim, ?_⟩
          rcases hcy with ⟨pr, hpr, hcyc⟩
          exact ⟨pr, hpr, (hasAncestorCycle_iff pr.1 pr.2).mp hcyc⟩
        | false =>
          simp only [if_false, Bool.false_eq_true, hfind, Option.isSome_none]
          constructor
          · intro hc
            cases hc
          · intro hc
            rcases hc with ⟨h1, h2, pr, hpr, hcyc⟩
            rw [(findCycleAcrossFrames_iff frames parent childSite).mpr
              ⟨pr, hpr, (hasAncestorCycle_iff pr.1 pr.2).mpr hcyc⟩] at hfind
            cases hfind
  · intro err herr
    unfold CheckForCycle at herr
    split at herr
    · cases herr
    · split at herr
      · cases herr
      · split at herr
        · constructor
          · cases herr
            rfl
          · unfold AddArcModel
            unfold CheckForCycle
            rename_i hex hvar hfind
            rw [if_neg hex, if_neg hvar, if_pos hfind]
        · cases herr

/-- Witness for claim C1: a prim referencing itself; the cycle is detected,
the error chain runs from the root site to the offending child site, and
no node is created. -/
theorem claim_C1_cycle_check_witness :
    ((CheckForCycle (.root 0 ⟨0, [1]⟩) (.root 0 ⟨0, [1]⟩) .Reference
      ⟨0, [1]⟩ []).isSome = true) ∧
    (ArcCycleErr.cycle ⟨[(⟨0, [1]⟩, .Root), (⟨0, [1]⟩, .Reference)]⟩ =
      (iterChain (.root 0 ⟨0, [1]⟩) []).reverse ++ [(⟨0, [1]⟩, .Reference)] ∧
     AddArcModel .Reference (.root 0 ⟨0, [1]⟩) (.root 0 ⟨0, [1]⟩) []
       ⟨0, [1]⟩ true false [] false [] = (none, [⟨.ArcCycle, 0⟩])) :=
  ⟨(claim_C1_cycle_check (.root 0 ⟨0, [1]⟩) (.root 0 ⟨0, [1]⟩) .Reference
      ⟨0, [1]⟩ [] true false [] false []).1.mpr
    ⟨by decide, by decide,
     ⟨(⟨0, [1]⟩, ⟨0, [1]⟩), by decide, by decide⟩⟩,
   (claim_C1_cycle_check (.root 0 ⟨0, [1]⟩) (.root 0 ⟨0, [1]⟩) .Reference
      ⟨0, [1]⟩ [] true false [] false []).2
     ⟨[(⟨0, [1]⟩, .Root), (⟨0, [1]⟩, .Reference)]⟩ (by rfl)⟩

/-! ## Claim C8: RetryVariantTasks -/

theorem TaskType.rank_inj (t u : TaskType) (h : t.rank = u.rank) : t = u := by
  cases t <;> cases u <;> first | rfl | (exact absurd h (by decide))

theorem keyLt_asymm (x y : Int × Int × Int) (h : keyLt x y) : ¬ keyLt y x := by
  unfold keyLt at *
  omega

theorem keyLt_trans (x y z : Int × Int × Int) (h1 : keyLt x y)
    (h2 : keyLt y z) : keyLt x z := by
  unfold keyLt at *
  omega

theorem keyLt_negtrans (x y z : Int × Int × Int) (h1 : ¬ keyLt x y)
    (h2 : ¬ keyLt y z) : ¬ keyLt x z := by
  unfold keyLt at *
  omega

theorem keyLt_le_lt (x y z : Int × Int × Int) (h1 : ¬ keyLt x y)
    (h2 : keyLt x z) : keyLt y z := by
  unfold keyLt at *
  omega

theorem taskLT_iff_keyLt (s : Nat → Nat) (hs : ∀ a b, s a = s b → a = b)
    (a b : Task) :
    taskLT s a b = true ↔ keyLt (taskKey s a) (taskKey s b) := by
  unfold taskLT taskKey keyLt
  by_cases hty : a.type = b.type
  · rw [hty]
    rw [if_neg (by simp)]
    cases htyv : b.type <;>
      first
        | (simp only [decide_eq_true_eq, neg_lt_neg_iff, neg_inj,
             lt_self_iff_false, false_or, lt_irrefl, and_false, or_false,
             true_and]
           omega)
        | (by_cases hnd : a.node = b.node
           · simp only [hnd, bne_self_eq_false, Bool.false_eq_true, if_false,
               decide_eq_true_eq, neg_lt_neg_iff, neg_inj, lt_self_iff_false,
               false_or, true_and, eq_self_iff_true]
             omega
           · have hbne2 : (a.node != b.node) = true := by simpa using hnd
             have hsne : s a.node ≠ s b.node := fun h => hnd (hs _ _ h)
             simp only [hbne2, if_true, eq_self_iff_true, decide_eq_true_eq,
               neg_lt_neg_iff, neg_inj, lt_self_iff_false, false_or,
               lt_irrefl, and_false, or_false, true_and]
             omega)
  · have hbne : (a.type != b.type) = true := by simpa using hty
    rw [if_pos hbne]
    have hrne : a.type.rank ≠ b.type.rank := fun h =>
      hty (TaskType.rank_inj _ _ h)
    simp only [decide_eq_true_eq]
    omega

theorem taskLT_asymm (s : Nat → Nat) (hs : ∀ a b, s a = s b → a = b)
    (a b : Task) (h : taskLT s a b = true) : taskLT s b a = false := by
  rw [Bool.eq_false_iff]
  intro hc
  exact keyLt_asymm _ _ ((taskLT_iff_keyLt s hs a b).mp h)
    ((taskLT_iff_keyLt s hs b a).mp hc)

theorem taskLT_trans (s : Nat → Nat) (hs : ∀ a b, s a = s b → a = b)
    (a b c : Task) (h1 : taskLT s a b = true) (h2 : taskLT s b c = true) :
    taskLT s a c = true :=
  (taskLT_iff_keyLt s hs a c).mpr
    (keyLt_trans _ _ _ ((taskLT_iff_keyLt s hs a b).mp h1)
      ((taskLT_iff_keyLt s hs b c).mp h2))

theorem taskLT_negtrans (s : Nat → Nat) (hs : ∀ a b, s a = s b → a = b)
    (a b c : Task) (h1 : taskLT s a b = false) (h2 : taskLT s b c = false) :
    taskLT s a c = false := by
  rw [Bool.eq_false_iff]
  intro hc
  exact keyLt_negtrans _ _ _
    (fun k => by rw [(taskLT_iff_keyLt s hs a b).mpr k] at h1; cases h1)
    (fun k => by rw [(taskLT_iff_keyLt s hs b c).mpr k] at h2; cases h2)
    ((taskLT_iff_keyLt s hs a c).mp hc)

theorem keyLt_promote (s : Nat → Nat) (t : Task) :
    ¬ keyLt (taskKey s (promoteTask t)) (taskKey s t) := by
  unfold promoteTask
  split
  · rename_i hp
    rcases Bool.or_eq_true _ _ |>.mp hp with hp1 | hp1 <;>
      (have hbv := beq_iff_eq.mp hp1
       unfold taskKey keyLt
       rw [hbv]
       simp [TaskType.rank]
       try omega)
  · unfold keyLt
    omega

theorem taskLT_promote (s : Nat → Nat) (hs : ∀ a b, s a = s b → a = b)
    (t x : Task) (h : taskLT s t x = false) :
    taskLT s (promoteTask t) x = false := by
  rw [Bool.eq_false_iff]
  intro hc
  have hk := (taskLT_iff_keyLt s hs (promoteTask t) x).mp hc
  have ht := keyLt_le_lt _ _ _ (keyLt_promote s t) hk
  rw [(taskLT_iff_keyLt s hs t x).mpr ht] at h
  cases h

theorem promoteTask_not_pending (t : Task) :
    (promoteTask t).type ≠ .EvalNodeVariantFallback ∧
    (promoteTask t).type ≠ .EvalNodeVariantNoneFound := by
  unfold promoteTask
  split
  · simp
  · rename_i hp
    simp only [Bool.or_eq_true, beq_iff_eq, not_or] at hp
    exact hp

theorem getT_set_self (l : List Task) (i : Nat) (x : Task)
    (h : i < l.length) : getT (l.set i x) i = x := by
  simp [getT, List.getElem?_set, h]

theorem getT_set_ne (l : List Task) (i j : Nat) (x : Task) (h : i ≠ j) :
    getT (l.set i x) j = getT l j := by
  simp [getT, List.getElem?_set, h]

theorem getT_take (l : List Task) (k m : Nat) (h : k < m) :
    getT (l.take m) k = getT l k := by
  simp [getT, List.getElem?_take, h]

theorem count_set (l : List Task) (i : Nat) (x a : Task) (h : i < l.length) :
    (l.set i x).count a + (if getT l i = a then 1 else 0) =
      l.count a + (if x = a then 1 else 0) := by
  induction l generalizing i with
  | nil => simp at h
  | cons hd tl ih =>
    cases i with
    | zero =>
      simp only [List.set_cons_zero, List.count_cons, getT, List.getElem?_cons_zero,
        Option.getD_some]
      by_cases h1 : hd = a <;> by_cases h2 : x = a <;>
        simp [h1, h2] <;> omega
    | succ n =>
      have hn : n < tl.length := by simpa using h
      simp only [List.set_cons_succ, List.count_cons]
      have hget : getT (hd :: tl) (n + 1) = getT tl n := by
        simp [getT]
      rw [hget]
      have := ih n hn
      by_cases h1 : hd = a <;> simp [h1] <;> omega

theorem swap_perm (l : List Task) (p i : Nat) (hpi : p ≠ i)
    (hp : p < l.length) (hi : i < l.length) :
    ((l.set p (getT l i)).set i (getT l p)).Perm l := by
  rw [List.perm_iff_count]
  intro a
  have h1 := count_set l p (getT l i) a hp
  have h2 := count_set (l.set p (getT l i)) i (getT l p) a
    (by simpa using hi)
  rw [getT_set_ne l p i _ hpi] at h2
  omega

theorem siftUpAux_length (lt : Task → Task → Bool) :
    ∀ (fuel : Nat) (l : List Task) (i : Nat),
      (siftUpAux lt l i fuel).length = l.length := by
  intro fuel
  induction fuel with
  | zero => intro l i; rfl
  | succ fuel ih =>
    intro l i
    unfold siftUpAux
    split
    · rfl
    · split
      · rw [ih]
        simp
      · rfl

theorem siftUpAux_drop_eq (lt : Task → Task → Bool) :
    ∀ (fuel : Nat) (l : List Task) (i m : Nat), i < m →
      (siftUpAux lt l i fuel).drop m = l.drop m := by
  intro fuel
  induction fuel with
  | zero => intro l i m _; rfl
  | succ fuel ih =>
    intro l i m him
    unfold siftUpAux
    split
    · rfl
    · split
      · rename_i hi0 hlt
        rw [ih _ _ m (by omega)]
        rw [List.drop_set_of_lt _ _ him,
          List.drop_set_of_lt _ _ (by omega : (i - 1) / 2 < m)]
      · rfl

theorem siftUpAux_take_perm (lt : Task → Task → Bool) :
    ∀ (fuel : Nat) (l : List Task) (i m : Nat), i ≤ fuel → i < m →
      i < l.length →
      ((siftUpAux lt l i fuel).take m).Perm (l.take m) := by
  intro fuel
  induction fuel with
  | zero => intro l i m _ _ _; exact List.Perm.refl _
  | succ fuel ih =>
    intro l i m hif him hilen
    unfold siftUpAux
    split
    · exact List.Perm.refl _
    · split
      · rename_i hi0 hlt
        have hpi : (i - 1) / 2 < i := by omega
        have hplen : (i - 1) / 2 < l.length := by omega
        refine List.Perm.trans (ih _ _ m (by omega) (by omega) ?_) ?_
        · simp
          omega
        · have hset : (((l.set ((i - 1) / 2) (getT l i)).set i
              (getT l ((i - 1) / 2))).take m) =
              (((l.take m).set ((i - 1) / 2) (getT (l.take m) i)).set i
                (getT (l.take m) ((i - 1) / 2))) := by
            rw [List.set_take, List.set_take, getT_take _ _ _ him,
              getT_take _ _ _ (by omega : (i - 1) / 2 < m)]
          rw [hset]
          refine swap_perm (l.take m) _ i (by omega) ?_ ?_
          · simp
            omega
          · simp
            omega
      · exact List.Perm.refl _

theorem siftUpAux_perm (lt : Task → Task → Bool) (fuel : Nat) (l : List Task)
    (i : Nat) (hif : i ≤ fuel) (hilen : i < l.length) :
    (siftUpAux lt l i fuel).Perm l := by
  have h := siftUpAux_take_perm lt fuel l i l.length hif hilen hilen
  rw [List.take_of_length_le (le_of_eq (siftUpAux_length lt fuel l i)),
    List.take_length] at h
  exact h

theorem siftUpAux_isHeap (lt : Task → Task → Bool)
    (hAsym : ∀ a b, lt a b = true → lt b a = false)
    (hTrans : ∀ a b c, lt a b = true → lt b c = true → lt a c = true)
    (hNegTrans : ∀ a b c, lt a b = false → lt b c = false → lt a c = false) :
    ∀ (fuel : Nat) (l : List Task) (i : Nat), i ≤ fuel → i < l.length →
      AlmostHeap lt l i → IsHeap lt (siftUpAux lt l i fuel) := by
  intro fuel
  induction fuel with
  | zero =>
    intro l i hif hilen hA
    have hi0 : i = 0 := by omega
    subst hi0
    intro j hj0 hjlen
    exact hA.1 j hj0 (by simpa using hjlen) (by omega)
  | succ fuel ih =>
    intro l i hif hilen hA
    unfold siftUpAux
    split
    · rename_i hi0
      subst hi0
      intro j hj0 hjlen
      exact hA.1 j hj0 hjlen (by omega)
    · split
      · rename_i hi0 hlt
        have hpi : (i - 1) / 2 < i := by omega
        have hplen : (i - 1) / 2 < l.length := by omega
        set a := getT l ((i - 1) / 2) with ha
        set b := getT l i with hb
        set l2 := (l.set ((i - 1) / 2) b).set i a with hl2
        have hlen2 : l2.length = l.length := by simp [hl2]
        have g1 : getT l2 i = a := by
          rw [hl2]
          exact getT_set_self _ i a (by simpa using hilen)
        have g2 : getT l2 ((i - 1) / 2) = b := by
          rw [hl2]
          rw [getT_set_ne _ i ((i - 1) / 2) a (by omega)]
          exact getT_set_self _ _ b hplen
        have g3 : ∀ k, k ≠ i → k ≠ (i - 1) / 2 → getT l2 k = getT l k := by
          intro k hki hkp
          rw [hl2, getT_set_ne _ i k a (fun h => hki h.symm),
            getT_set_ne _ _ k b (fun h => hkp h.symm)]
        apply ih l2 ((i - 1) / 2) (by omega) (by omega)
        constructor
        · intro j hj0 hjlen hjp
          rw [hlen2] at hjlen
          by_cases hji : j = i
          · subst hji
            rw [g1, g2]
            exact hAsym _ _ hlt
          · rw [g3 j hji hjp]
            by_cases hpj_i : (j - 1) / 2 = i
            · rw [hpj_i, g1]
              exact hA.2 j hj0 hjlen hpj_i hi0
            · by_cases hpj_p : (j - 1) / 2 = (i - 1) / 2
              · rw [hpj_p, g2]
                have h1 : lt (getT l ((i - 1) / 2)) (getT l j) = false := by
                  have := hA.1 j hj0 hjlen hji
                  rw [hpj_p] at this
                  exact this
                rw [Bool.eq_false_iff]
                intro hc
                have := hTrans _ _ _ hlt hc
                rw [← ha] at h1
                rw [h1] at this
                cases this
              · rw [g3 _ hpj_i hpj_p]
                exact hA.1 j hj0 hjlen hji
        · intro c hc0 hclen hpc hp0
          rw [hlen2] at hclen
          have hgp_ne_p : ((i - 1) / 2 - 1) / 2 ≠ (i - 1) / 2 := by omega
          have hgp_ne_i : ((i - 1) / 2 - 1) / 2 ≠ i := by omega
          rw [g3 _ hgp_ne_i hgp_ne_p]
          have hpp : lt (getT l (((i - 1) / 2 - 1) / 2))
              (getT l ((i - 1) / 2)) = false := by
            have := hA.1 ((i - 1) / 2) (by omega) hplen (by omega)
            exact this
          by_cases hci : c = i
          · subst hci
            rw [g1, ha]
            exact hpp
          · have hcp : c ≠ (i - 1) / 2 := by omega
            rw [g3 c hci hcp]
            refine hNegTrans _ _ _ hpp ?_
            have := hA.1 c hc0 hclen hci
            rw [hpc] at this
            exact this
      · rename_i hi0 hlt
        intro j hj0 hjlen
        by_cases hji : j = i
        · subst hji
          exact Bool.eq_false_iff.mpr hlt
        · exact hA.1 j hj0 hjlen hji

theorem set_promote_almostHeap (lt : Task → Task → Bool)
    (hNegTrans : ∀ a b c, lt a b = false → lt b c = false → lt a c = false)
    (l : List Task) (i : Nat) (hi : i < l.length) (hheap : IsHeap lt l)
    (t2 : Task) (hdom : ∀ x, lt (getT l i) x = false → lt t2 x = false) :
    AlmostHeap lt (l.set i t2) i := by
  constructor
  · intro j hj0 hjlen hji
    rw [List.length_set] at hjlen
    rw [getT_set_ne l i j t2 (Ne.symm hji)]
    by_cases hpj : (j - 1) / 2 = i
    · rw [hpj, getT_set_self l i t2 hi]
      apply hdom
      have := hheap j hj0 hjlen
      rw [hpj] at this
      exact this
    · rw [getT_set_ne l i _ t2 (fun h => hpj h.symm)]
      exact hheap j hj0 hjlen
  · intro c hc0 hclen hpc hi0
    rw [List.length_set] at hclen
    have hci : c ≠ i := by omega
    have hpi : (i - 1) / 2 ≠ i := by omega
    rw [getT_set_ne l i c t2 (Ne.symm hci),
      getT_set_ne l i _ t2 (Ne.symm hpi)]
    refine hNegTrans _ _ _ (hheap i (by omega) hi) ?_
    have := hheap c hc0 hclen
    rw [hpc] at this
    exact this

theorem retryLoop_isHeap (lt : Task → Task → Bool)
    (hAsym : ∀ a b, lt a b = true → lt b a = false)
    (hTrans : ∀ a b c, lt a b = true → lt b c = true → lt a c = true)
    (hNegTrans : ∀ a b c, lt a b = false → lt b c = false → lt a c = false)
    (hpr : ∀ t x, lt t x = false → lt (promoteTask t) x = false) :
    ∀ (fuel : Nat) (l : List Task) (i : Nat), IsHeap lt l →
      IsHeap lt (retryLoop lt l i fuel) := by
  intro fuel
  induction fuel with
  | zero => intro l i h; exact h
  | succ fuel ih =>
    intro l i hheap
    unfold retryLoop
    split
    · exact hheap
    · rename_i t hget
      split
      · apply ih
        have hi : i < l.length := by
          by_contra hc
          rw [List.getElem?_eq_none_iff.mpr (by omega)] at hget
          cases hget
        have hgt : getT l i = t := by simp [getT, hget]
        apply siftUpAux_isHeap lt hAsym hTrans hNegTrans i _ i (le_refl i)
          (by simpa using hi)
        apply set_promote_almostHeap lt hNegTrans l i hi hheap
        intro x hx
        rw [hgt] at hx
        exact hpr t x hx
      · exact ih l (i + 1) hheap

theorem retryLoop_perm (lt : Task → Task → Bool) :
    ∀ (fuel : Nat) (l : List Task) (i : Nat), l.length ≤ i + fuel →
      (retryLoop lt l i fuel).Perm
        (l.take i ++ (l.drop i).map promoteTask) := by
  intro fuel
  induction fuel with
  | zero =>
    intro l i hlen
    have h1 : l.drop i = [] := List.drop_eq_nil_of_le (by omega)
    have h2 : l.take i = l := List.take_of_length_le (by omega)
    rw [h1, h2]
    simp [retryLoop]
  | succ fuel ih =>
    intro l i hlen
    unfold retryLoop
    split
    · rename_i hget
      have hle : l.length ≤ i := List.getElem?_eq_none_iff.mp hget
      have h1 : l.drop i = [] := List.drop_eq_nil_of_le hle
      have h2 : l.take i = l := List.take_of_length_le hle
      rw [h1, h2]
      simp
    · rename_i t hget
      have hi : i < l.length := by
        by_contra hc
        rw [List.getElem?_eq_none_iff.mpr (by omega)] at hget
        cases hget
      have hgetel : l[i] = t := (List.getElem?_eq_some_iff.mp hget).2
      have hdrop : l.drop i = t :: l.drop (i + 1) := by
        rw [List.drop_eq_getElem_cons hi, hgetel]
      have htake : l.take (i + 1) = l.take i ++ [t] := by
        rw [List.take_succ, hget]
        rfl
      have htklen : (l.take i).length = i := by
        simp
        omega
      split
      · rename_i hprom
        have hstep := ih (siftUpAux lt (l.set i (promoteTask t)) i i) (i + 1)
          (by rw [siftUpAux_length]; simp; omega)
        have hdrop2 : (siftUpAux lt (l.set i (promoteTask t)) i i).drop
            (i + 1) = l.drop (i + 1) := by
          rw [siftUpAux_drop_eq lt i _ i (i + 1) (by omega),
            List.drop_set_of_lt _ _ (by omega)]
        have hsetEq : (l.set i (promoteTask t)).take (i + 1) =
            l.take i ++ [promoteTask t] := by
          rw [List.set_take, htake]
          rw [List.set_append_right i (promoteTask t) (le_of_eq htklen)]
          rw [htklen]
          simp
        have htake2 : ((siftUpAux lt (l.set i (promoteTask t)) i i).take
            (i + 1)).Perm (l.take i ++ [promoteTask t]) := by
          refine (siftUpAux_take_perm lt i (l.set i (promoteTask t)) i (i + 1)
            (le_refl i) (by omega) (by simpa using hi)).trans ?_
          rw [hsetEq]
        refine hstep.trans ?_
        rw [hdrop2, hdrop, List.map_cons]
        have hfinal : (List.take i l ++ [promoteTask t]) ++
            (l.drop (i + 1)).map promoteTask =
            List.take i l ++
              (promoteTask t :: (l.drop (i + 1)).map promoteTask) := by
          simp
        rw [← hfinal]
        exact htake2.append_right _
      · rename_i hprom
        have hpromt : promoteTask t = t := by
          unfold promoteTask
          rw [if_neg hprom]
        refine (ih l (i + 1) (by omega)).trans ?_
        rw [htake, hdrop, List.map_cons, hpromt]
        have hfinal : (List.take i l ++ [t]) ++
            (l.drop (i + 1)).map promoteTask =
            List.take i l ++ (t :: (l.drop (i + 1)).map promoteTask) := by
          simp
        rw [hfinal]

/-- Claim C8: RetryVariantTasks rewrites every pending
EvalNodeVariantFallback and EvalNodeVariantNoneFound task in the task heap
to EvalNodeVariantAuthored, leaving all other tasks alone (the resulting
vector is a permutation of the promoted original, so no pending variant
task survives), and restores the heap ordering; and _AddVariantArc invokes
it exactly after a successful insertion of a Variant arc.  The strength
function s must be injective, as PcpCompareNodeStrength is a total order
on distinct nodes. -/
theorem claim_C8_retry_variant_tasks (s : Nat → Nat)
    (hs : ∀ a b, s a = s b → a = b) (l : List Task)
    (hheap : IsHeap (taskLT s) l) :
    (RetryVariantTasks s l).Perm (l.map promoteTask) ∧
    IsHeap (taskLT s) (RetryVariantTasks s l) ∧
    (∀ t ∈ RetryVariantTasks s l,
      t.type ≠ .EvalNodeVariantFallback ∧
      t.type ≠ .EvalNodeVariantNoneFound) ∧
    (∀ (n : NewNode) (ts : List Task),
      AddVariantArcTasks s (some n) ts = RetryVariantTasks s ts ∧
      AddVariantArcTasks s none ts = ts) := by
  have hperm : (RetryVariantTasks s l).Perm (l.map promoteTask) := by
    have := retryLoop_perm (taskLT s) l.length l 0 (by omega)
    simpa [RetryVariantTasks] using this
  refine ⟨hperm, ?_, ?_, ?_⟩
  · exact retryLoop_isHeap (taskLT s) (taskLT_asymm s hs)
      (taskLT_trans s hs) (taskLT_negtrans s hs)
      (fun t x h => taskLT_promote s hs t x h) l.length l 0 hheap
  · intro t ht
    have hmem : t ∈ l.map promoteTask := hperm.mem_iff.mp ht
    rcases List.mem_map.mp hmem with ⟨u, _, rfl⟩
    exact promoteTask_not_pending u
  · intro n ts
    exact ⟨rfl, rfl⟩

/-- Witness for claim C8 on a concrete three-task heap containing one
pending fallback task and one pending none-found task. -/
theorem claim_C8_retry_variant_tasks_witness :
    (RetryVariantTasks id
      [⟨.EvalNodeReferences, 0, "", 0⟩, ⟨.EvalNodeVariantFallback, 1, "v", 0⟩,
       ⟨.EvalNodeVariantNoneFound, 2, "w", 1⟩]).Perm
      ([⟨.EvalNodeReferences, 0, "", 0⟩,
        ⟨.EvalNodeVariantFallback, 1, "v", 0⟩,
        ⟨.EvalNodeVariantNoneFound, 2, "w", 1⟩].map promoteTask) ∧
    IsHeap (taskLT id) (RetryVariantTasks id
      [⟨.EvalNodeReferences, 0, "", 0⟩, ⟨.EvalNodeVariantFallback, 1, "v", 0⟩,
       ⟨.EvalNodeVariantNoneFound, 2, "w", 1⟩]) :=
  have h := claim_C8_retry_variant_tasks id (fun a b h => h)
    [⟨.EvalNodeReferences, 0, "", 0⟩, ⟨.EvalNodeVariantFallback, 1, "v", 0⟩,
     ⟨.EvalNodeVariantNoneFound, 2, "w", 1⟩] (by decide)
  ⟨h.1, h.2.1⟩
